import Mathlib

/-!
# Battle-ships match: lifecycle state machine and facade

A shallow embedding of `src/common/game.js`: the transition table built by
`createGame` and the `Game` facade that wraps it.

* JavaScript references to player objects are values of `PlayerRef`
  (`none` is `null`); `===` on them is equality of `PlayerRef`.
* A call that can throw returns a `Completion` together with the match as it
  is after the call, so that what a failed call leaves behind can be stated.
* The board (`board.js`) is an external collaborator: the embedding is
  parametric in a `BoardContract`.
-/

namespace BattleShips

/-! ## Data model -/

/-- The lifecycle states, `States` of game.js. -/
inductive States where
  | IDLE
  | AWAITING_PLAYER
  | AWAITING_START
  | PLAYER_TURN
  | FINISHED
  | DESTROYED
  deriving DecidableEq, Repr

/-- The string each member of `States` is bound to in game.js. -/
def States.value : States → String
  | .IDLE => "idle"
  | .AWAITING_PLAYER => "awaiting"
  | .AWAITING_START => "awaitingStart"
  | .PLAYER_TURN => "playerTurn"
  | .FINISHED => "finished"
  | .DESTROYED => "destroyed"

/-- Modelled from the spec: `ShootResult` of constants.js, which is not part of
the sources at hand. The board contract names HIT and MISS and, optionally,
ALREADY_SHOT and INVALID. -/
inductive ShootResult where
  | HIT
  | MISS
  | ALREADY_SHOT
  | INVALID
  deriving DecidableEq, Repr

/-- A player object. `ref` is the identity of the object; `id` and `info` are
what its `getId()` and `getInfo()` return (`none` for `null`). -/
structure Player where
  ref : Nat
  id : Option String
  info : Option String
  deriving DecidableEq, Repr

/-- A JavaScript value holding a player object or `null`. -/
abbrev PlayerRef := Option Player

/-- Why a call threw. -/
inductive Failure where
  /-- the machine's current state does not define the trigger -/
  | illegalTransition
  /-- thrown by `makeShot` when the shooter is not the current player -/
  | otherPlayerTurn
  /-- thrown by `leave` in AWAITING_START when the player is in neither slot -/
  | notInGame
  /-- a method was called on `null` or `undefined` -/
  | typeError
  deriving DecidableEq, Repr

/-- How a call ended: it returned, or it threw. -/
inductive Completion where
  | returned
  | threw (e : Failure)
  deriving DecidableEq, Repr

/-- Modelled from the spec: the contract of `Board` (board.js, not part of the
sources at hand). `create` is `new Board()`; `processShoot` returns the board
as it is after the shot together with the shot's result. -/
structure BoardContract (Board Position Snap PubSnap : Type) where
  create : Board
  processShoot : Board → Position → Board × ShootResult
  isAllShipsDestroyed : Board → Bool
  getSnapshoot : Board → Snap
  getPublicSnapshoot : Board → PubSnap

/-- `Map.prototype.get` on a map keyed by player references. -/
def mapGet {V : Type} : List (PlayerRef × V) → PlayerRef → Option V
  | [], _ => none
  | (k, v) :: rest, key => if k = key then some v else mapGet rest key

/-- `Map.prototype.set`: replaces the value of an existing key in place,
appends a new key otherwise. -/
def mapSet {V : Type} : List (PlayerRef × V) → PlayerRef → V → List (PlayerRef × V)
  | [], key, val => [(key, val)]
  | (k, v) :: rest, key, val =>
    if k = key then (k, val) :: rest else (k, v) :: mapSet rest key val

/-- The context object handed to `StateMachine` in `createGame`, together with
the machine's current state. -/
structure Machine (Board : Type) where
  state : States
  playerA : PlayerRef
  playerB : PlayerRef
  boards : List (PlayerRef × Board)
  current : PlayerRef
  waiting : PlayerRef
  deriving DecidableEq, Repr

/-- A trigger of the machine with its arguments. -/
inductive Call (Position : Type) where
  | initialize_ (playerA : PlayerRef)
  | join (playerB : PlayerRef)
  | leave (player : PlayerRef)
  | start
  | makeShot (player : PlayerRef) (position : Position)
  | destroy

/-- The snapshot object returned by `getGameState`. -/
structure GameState (Snap PubSnap : Type) where
  id : String
  state : States
  winnerId : Option String
  current : Option String
  waiting : Option String
  ownBoard : Option Snap
  enemyBoard : Option PubSnap
  deriving DecidableEq, Repr

/-- The `Game` facade: `_id`, `_owner`, `_machine`, and the "update"
notifications emitted so far, oldest first. -/
structure Game (Board Snap PubSnap : Type) where
  id : String
  owner : PlayerRef
  machine : Machine Board
  updates : List (GameState Snap PubSnap)
  deriving DecidableEq, Repr

/-- The values `isOver` compares with `===`: a string, or the object built by
`getGameState`. -/
inductive Value (Snap PubSnap : Type) where
  | str (s : String)
  | obj (o : GameState Snap PubSnap)

/-- JavaScript `===` on `Value`: two strings are compared by content; an object
freshly built by `getGameState` is identical to no string and to no other
object. -/
def strictEquals {Snap PubSnap : Type} : Value Snap PubSnap → Value Snap PubSnap → Bool
  | .str a, .str b => decide (a = b)
  | _, _ => false

section Embedding

variable {Board Position Snap PubSnap : Type}
variable (bc : BoardContract Board Position Snap PubSnap)

/-! ## The state machine of `createGame` -/

/-- The method `switchPlayer` of the machine. -/
def switchPlayer (m : Machine Board) : Machine Board :=
  { m with current := m.waiting, waiting := m.current }

/-- A handler of the transition table: it throws, or it yields the next state
and the context as it has mutated it. No handler of game.js mutates the
context before it throws. -/
abbrev Handler (Board : Type) := Machine Board → Except Failure (States × Machine Board)

/-- Modelled from the spec: `transitionTo(state, fn)` of state-machine.js (not
part of the sources at hand): run `fn` on the context, then enter `state`. -/
def transitionTo (next : States) (fn : Machine Board → Except Failure (Machine Board)) :
    Handler Board :=
  fun m => (fn m).map fun m' => (next, m')

/-- Modelled from the spec: `transitionTo(fn)` of state-machine.js, the form
with a single function argument: `fn` returns the state to enter. -/
def transitionToReturned (fn : Machine Board → Except Failure (States × Machine Board)) :
    Handler Board :=
  fn

/-- The table `[STATES]` of `createGame`: the handler each state defines for
each trigger, `none` where the state does not define the trigger. In the last
branch of `leave` the message of the Error reads `player.id`, which throws a
TypeError when `player` is `null`. -/
def transitions : States → Call Position → Option (Handler Board)
  | .IDLE, .initialize_ playerA =>
    some (transitionTo .AWAITING_PLAYER fun m =>
      .ok { m with playerA := playerA, boards := mapSet m.boards playerA bc.create })
  | .AWAITING_PLAYER, .join playerB =>
    some (transitionTo .AWAITING_START fun m =>
      .ok { m with playerB := playerB, boards := mapSet m.boards playerB bc.create })
  | .AWAITING_PLAYER, .destroy => some (transitionTo .DESTROYED fun m => .ok m)
  | .AWAITING_PLAYER, .leave _ => some (transitionTo .DESTROYED fun m => .ok m)
  | .AWAITING_START, .leave player =>
    some (transitionTo .AWAITING_PLAYER fun m =>
      if player = m.playerA then .ok { m with playerA := none }
      else if player = m.playerB then .ok { m with playerB := none }
      else
        match player with
        | none => .error .typeError
        | some _ => .error .notInGame)
  | .AWAITING_START, .start =>
    some (transitionTo .PLAYER_TURN fun m =>
      .ok { m with current := m.playerA, waiting := m.playerB })
  | .AWAITING_START, .destroy => some (transitionTo .DESTROYED fun m => .ok m)
  | .PLAYER_TURN, .makeShot player position =>
    some (transitionToReturned fun m =>
      if player ≠ m.current then .error .otherPlayerTurn
      else
        match mapGet m.boards m.waiting with
        | none => .error .typeError
        | some board =>
          let shot := bc.processShoot board position
          let m' := { m with boards := mapSet m.boards m.waiting shot.1 }
          if bc.isAllShipsDestroyed shot.1 then .ok (.FINISHED, m')
          else if shot.2 = .MISS then .ok (.PLAYER_TURN, switchPlayer m')
          else .ok (.PLAYER_TURN, m'))
  | .PLAYER_TURN, .destroy => some (transitionTo .DESTROYED fun m => .ok m)
  | .PLAYER_TURN, .leave _ => some (transitionTo .DESTROYED fun m => .ok m)
  | _, _ => none

/-- Modelled from the spec: the dispatch of `StateMachine` (state-machine.js,
not part of the sources at hand). A trigger the current state does not define
fails and mutates nothing; a handler that throws fails and the state is not
changed; otherwise the machine enters the handler's next state. -/
def Machine.fire (m : Machine Board) (c : Call Position) : Completion × Machine Board :=
  match transitions bc m.state c with
  | none => (.threw .illegalTransition, m)
  | some handler =>
    match handler m with
    | .error e => (.threw e, m)
    | .ok (next, m') => (.returned, { m' with state := next })

/-- The machine `createGame()` returns: the initial context in state IDLE. -/
def createGame : Machine Board :=
  { state := .IDLE, playerA := none, playerB := none, boards := [],
    current := none, waiting := none }

/-! ## The `Game` facade -/

/-- `Game.getState`. -/
def Game.getState (g : Game Board Snap PubSnap) : States :=
  g.machine.state

/-- `Game.getOwnerInfo`: `this._owner?.getInfo() ?? null`. -/
def Game.getOwnerInfo (g : Game Board Snap PubSnap) : Option String :=
  g.owner.bind fun o => o.info

/-- `Game.getCurrentPlayer`. -/
def Game.getCurrentPlayer (g : Game Board Snap PubSnap) : PlayerRef :=
  g.machine.current

/-- `Game.getWaitingPlayer`. -/
def Game.getWaitingPlayer (g : Game Board Snap PubSnap) : PlayerRef :=
  g.machine.waiting

/-- `Game.getBoard`. -/
def Game.getBoard (g : Game Board Snap PubSnap) (player : PlayerRef) : Option Board :=
  mapGet g.machine.boards player

/-- `Game.getGameState`. `winnerId` is
`(waitingBoard?.isAllShipsDestroyed() ?? false) ? current.getId() : null`,
which throws a TypeError when the test holds and `current` is `null`. -/
def Game.getGameState (g : Game Board Snap PubSnap) : Except Failure (GameState Snap PubSnap) :=
  let current := g.getCurrentPlayer
  let waiting := g.getWaitingPlayer
  let currentBoard := g.getBoard current
  let waitingBoard := g.getBoard waiting
  let finish := fun (winnerId : Option String) =>
    ({ id := g.id
       state := g.getState
       winnerId := winnerId
       current := current.bind fun p => p.info
       waiting := waiting.bind fun p => p.info
       ownBoard := currentBoard.map bc.getSnapshoot
       enemyBoard := waitingBoard.map bc.getPublicSnapshoot } : GameState Snap PubSnap)
  if (waitingBoard.map bc.isAllShipsDestroyed).getD false then
    match current with
    | none => .error .typeError
    | some p => .ok (finish p.id)
  else .ok (finish none)

/-- `Game.isOver`, as written: it compares the object returned by
`getGameState()` with the state strings. -/
def Game.isOver (g : Game Board Snap PubSnap) : Except Failure Bool :=
  match g.getGameState bc with
  | .error e => .error e
  | .ok s1 =>
    if strictEquals (.obj s1) (.str States.DESTROYED.value) then .ok true
    else
      match g.getGameState bc with
      | .error e => .error e
      | .ok s2 => .ok (strictEquals (.obj s2) (.str States.FINISHED.value))

/-- A trigger sent to `_machine` once the constructor has installed
`onStateTransition`. Modelled from the spec: every successful transition is
followed by one "update" notification carrying `getGameState()`; a failed
trigger notifies nothing. -/
def Game.send (g : Game Board Snap PubSnap) (c : Call Position) :
    Completion × Game Board Snap PubSnap :=
  match g.machine.fire bc c with
  | (.threw e, m) => (.threw e, { g with machine := m })
  | (.returned, m) =>
    let g' := { g with machine := m }
    match g'.getGameState bc with
    | .error e => (.threw e, g')
    | .ok s => (.returned, { g' with updates := g'.updates ++ [s] })

/-- The constructor of `Game`. `id` is what `getNextId("game")` returned. The
machine is initialised before `onStateTransition` is installed, so nothing is
notified. -/
def Game.constructor (id : String) (owner : PlayerRef) : Game Board Snap PubSnap :=
  { id := id, owner := owner,
    machine := ((createGame : Machine Board).fire bc (.initialize_ owner)).2,
    updates := [] }

/-- `Game.initialize`. -/
def Game.initialize_ (g : Game Board Snap PubSnap) : Completion × Game Board Snap PubSnap :=
  g.send bc (.initialize_ g.owner)

/-- `Game.start`. -/
def Game.start (g : Game Board Snap PubSnap) : Completion × Game Board Snap PubSnap :=
  g.send bc .start

/-- `Game.join`. -/
def Game.join (g : Game Board Snap PubSnap) (player : PlayerRef) :
    Completion × Game Board Snap PubSnap :=
  if player = g.machine.playerA ∨ player = g.machine.playerB then (.returned, g)
  else g.send bc (.join player)

/-- `Game.leave`. When the machine throws, the assignment to `_owner` that
follows is not reached. -/
def Game.leave (g : Game Board Snap PubSnap) (player : PlayerRef) :
    Completion × Game Board Snap PubSnap :=
  if player = g.owner then
    match g.send bc .destroy with
    | (.returned, g') => (.returned, { g' with owner := none })
    | (.threw e, g') => (.threw e, g')
  else
    match g.send bc (.leave player) with
    | (.returned, g') =>
      if g'.getState = .DESTROYED then (.returned, { g' with owner := none })
      else (.returned, g')
    | (.threw e, g') => (.threw e, g')

/-- `Game.makeShot`. -/
def Game.makeShot (g : Game Board Snap PubSnap) (player : PlayerRef) (target : Position) :
    Completion × Game Board Snap PubSnap :=
  g.send bc (.makeShot player target)

/-- `Game.destroy`. -/
def Game.destroy (g : Game Board Snap PubSnap) : Completion × Game Board Snap PubSnap :=
  g.send bc .destroy

/-- A call on the facade with its arguments. -/
inductive FacadeCall (Position : Type) where
  | initialize_
  | start
  | join (player : PlayerRef)
  | leave (player : PlayerRef)
  | makeShot (player : PlayerRef) (target : Position)
  | destroy

/-- The facade method a `FacadeCall` names, applied to a match. -/
def Game.call (g : Game Board Snap PubSnap) :
    FacadeCall Position → Completion × Game Board Snap PubSnap
  | .initialize_ => g.initialize_ bc
  | .start => g.start bc
  | .join player => g.join bc player
  | .leave player => g.leave bc player
  | .makeShot player target => g.makeShot bc player target
  | .destroy => g.destroy bc

/-- The matches a caller can hold: the one the constructor builds for a
non-null owner, and what any facade call, with any arguments, leaves behind,
whether it returned or threw. -/
inductive Reachable (id : String) (owner : Player) : Game Board Snap PubSnap → Prop where
  | constructed : Reachable id owner (Game.constructor bc id (some owner))
  | call (g : Game Board Snap PubSnap) (c : FacadeCall Position) :
      Reachable id owner g → Reachable id owner (g.call bc c).2

/-- The role condition on `current` and `waiting`: both `null`, or two
distinct players that are `playerA` and `playerB` in one order or the other. -/
def RolesOK (m : Machine Board) : Prop :=
  (m.current = none ∧ m.waiting = none) ∨
  (∃ p q : Player, m.current = some p ∧ m.waiting = some q ∧ p ≠ q ∧
    ((m.playerA = some p ∧ m.playerB = some q) ∨ (m.playerA = some q ∧ m.playerB = some p)))

/-- What holds of the machine of every match built for `owner`. -/
structure MachineInv (owner : Player) (m : Machine Board) : Prop where
  notIdle : m.state ≠ .IDLE
  ownerIsA : m.playerA = some owner
  noNullBoard : mapGet m.boards none = none
  roles : RolesOK m
  awaitingPlayer : m.state = .AWAITING_PLAYER →
    m.playerB = none ∧ m.current = none ∧ m.waiting = none
  awaitingStart : m.state = .AWAITING_START →
    (∃ q : Player, m.playerB = some q ∧ q ≠ owner) ∧ m.current = none ∧ m.waiting = none
  playerTurn : m.state = .PLAYER_TURN → ∃ p : Player, m.current = some p

/-- What holds of every match built for `owner`: the machine invariant, and the
owner reference is in place until the match is destroyed. -/
structure GameInv (owner : Player) (g : Game Board Snap PubSnap) : Prop where
  machine : MachineInv owner g.machine
  ownerKept : g.machine.state ≠ .DESTROYED → g.owner = some owner
  ownerOrNull : g.owner = some owner ∨ g.owner = none

/-- The successful transitions of the machine, as a relation: `Step m c m'`
says that trigger `c`, fired on `m`, is accepted and leaves `m'`. It restates,
case by case, what `Machine.fire` computes from the table (`fire_cases`). -/
inductive Step : Machine Board → Call Position → Machine Board → Prop where
  | created (m : Machine Board) (p : PlayerRef) (hs : m.state = .IDLE) :
      Step m (.initialize_ p)
        { m with playerA := p, boards := mapSet m.boards p bc.create,
                 state := .AWAITING_PLAYER }
  | joined (m : Machine Board) (p : PlayerRef) (hs : m.state = .AWAITING_PLAYER) :
      Step m (.join p)
        { m with playerB := p, boards := mapSet m.boards p bc.create,
                 state := .AWAITING_START }
  | destroyed (m : Machine Board)
      (hs : m.state = .AWAITING_PLAYER ∨ m.state = .AWAITING_START ∨ m.state = .PLAYER_TURN) :
      Step m .destroy { m with state := .DESTROYED }
  | abandoned (m : Machine Board) (p : PlayerRef)
      (hs : m.state = .AWAITING_PLAYER ∨ m.state = .PLAYER_TURN) :
      Step m (.leave p) { m with state := .DESTROYED }
  | leftA (m : Machine Board) (p : PlayerRef) (hs : m.state = .AWAITING_START)
      (hp : p = m.playerA) :
      Step m (.leave p) { m with playerA := none, state := .AWAITING_PLAYER }
  | leftB (m : Machine Board) (p : PlayerRef) (hs : m.state = .AWAITING_START)
      (hpA : p ≠ m.playerA) (hp : p = m.playerB) :
      Step m (.leave p) { m with playerB := none, state := .AWAITING_PLAYER }
  | started (m : Machine Board) (hs : m.state = .AWAITING_START) :
      Step m .start
        { m with current := m.playerA, waiting := m.playerB, state := .PLAYER_TURN }
  | shotFinish (m : Machine Board) (p : PlayerRef) (pos : Position) (board : Board)
      (hs : m.state = .PLAYER_TURN) (hp : m.current = p)
      (hb : mapGet m.boards m.waiting = some board)
      (hd : bc.isAllShipsDestroyed (bc.processShoot board pos).1 = true) :
      Step m (.makeShot p pos)
        { m with boards := mapSet m.boards m.waiting (bc.processShoot board pos).1,
                 state := .FINISHED }
  | shotMiss (m : Machine Board) (p : PlayerRef) (pos : Position) (board : Board)
      (hs : m.state = .PLAYER_TURN) (hp : m.current = p)
      (hb : mapGet m.boards m.waiting = some board)
      (hd : bc.isAllShipsDestroyed (bc.processShoot board pos).1 = false)
      (hr : (bc.processShoot board pos).2 = .MISS) :
      Step m (.makeShot p pos)
        { m with boards := mapSet m.boards m.waiting (bc.processShoot board pos).1,
                 current := m.waiting, waiting := m.current, state := .PLAYER_TURN }
  | shotHit (m : Machine Board) (p : PlayerRef) (pos : Position) (board : Board)
      (hs : m.state = .PLAYER_TURN) (hp : m.current = p)
      (hb : mapGet m.boards m.waiting = some board)
      (hd : bc.isAllShipsDestroyed (bc.processShoot board pos).1 = false)
      (hr : (bc.processShoot board pos).2 ≠ .MISS) :
      Step m (.makeShot p pos)
        { m with boards := mapSet m.boards m.waiting (bc.processShoot board pos).1,
                 state := .PLAYER_TURN }

/-- The trigger a facade call forwards to `_machine`, `none` when `join`
returns at its deduplication test. -/
def Game.forwarded (g : Game Board Snap PubSnap) : FacadeCall Position → Option (Call Position)
  | .initialize_ => some (.initialize_ g.owner)
  | .start => some .start
  | .join player =>
    if player = g.machine.playerA ∨ player = g.machine.playerB then none
    else some (.join player)
  | .leave player => if player = g.owner then some .destroy else some (.leave player)
  | .makeShot player target => some (.makeShot player target)
  | .destroy => some .destroy

/-- The matches reached from `g0` by a finite sequence of facade calls, with
any arguments, each call followed whether it returned or threw. -/
inductive Driven (g0 : Game Board Snap PubSnap) : Game Board Snap PubSnap → Prop where
  | start : Driven g0 g0
  | call (g : Game Board Snap PubSnap) (c : FacadeCall Position) :
      Driven g0 g → Driven g0 (g.call bc c).2

/-- A call by which a player other than the owner leaves a match that awaits
its start. -/
def Departure (g : Game Board Snap PubSnap) (c : FacadeCall Position) : Prop :=
  ∃ p : PlayerRef, c = .leave p ∧ p ≠ g.owner ∧ g.getState = .AWAITING_START

/-- The matches a caller can hold when no call of the sequence is a
`Departure`. -/
inductive ReachableNoDeparture (id : String) (owner : Player) :
    Game Board Snap PubSnap → Prop where
  | constructed : ReachableNoDeparture id owner (Game.constructor bc id (some owner))
  | call (g : Game Board Snap PubSnap) (c : FacadeCall Position) :
      ReachableNoDeparture id owner g → ¬ Departure g c →
      ReachableNoDeparture id owner (g.call bc c).2

/-- The keys of the board map, in insertion order. -/
def boardKeys (m : Machine Board) : List PlayerRef :=
  m.boards.map Prod.fst

/-- The board map holds exactly one board per occupied slot: the board of
`playerA` alone while `playerB` is `null`, the boards of `playerA` and
`playerB`, in this order, once `playerB` is set. -/
def SlotBoards (m : Machine Board) : Prop :=
  (m.playerB = none ∧ boardKeys m = [m.playerA]) ∨
  (m.playerB ≠ none ∧ boardKeys m = [m.playerA, m.playerB])

/-- What holds of the boards of every match a caller can hold, when a newly
created board does not report all ships destroyed: outside FINISHED no board
of the map is finished; in FINISHED the current player is a player object and
the waiting player's board is finished. -/
structure WinnerInv (m : Machine Board) : Prop where
  alive : m.state ≠ .FINISHED →
    ∀ (k : PlayerRef) (b : Board), mapGet m.boards k = some b →
      bc.isAllShipsDestroyed b = false
  won : m.state = .FINISHED →
    ∃ (p : Player) (b : Board), m.current = some p ∧
      mapGet m.boards m.waiting = some b ∧ bc.isAllShipsDestroyed b = true

end Embedding

/-! ## A concrete board and concrete players, to run the model on -/

/-- A small board meeting the contract: the list of cells that still hold an
unsunk ship part. A shot at such a cell is a HIT and removes it, any other
shot is a MISS; the full view is the list, the public view its length. -/
def fleet : BoardContract (List Nat) Nat (List Nat) Nat where
  create := [3, 5]
  processShoot := fun b pos => if pos ∈ b then (b.erase pos, .HIT) else (b, .MISS)
  isAllShipsDestroyed := fun b => b.isEmpty
  getSnapshoot := fun b => b
  getPublicSnapshoot := fun b => b.length

/-- A player object. -/
def alice : Player := { ref := 1, id := some "p1", info := some "alice" }

/-- Another player object. -/
def bob : Player := { ref := 2, id := some "p2", info := some "bob" }

/-- A third player object. -/
def carol : Player := { ref := 3, id := some "p3", info := some "carol" }

/-- The match alice creates. -/
def created : Game (List Nat) (List Nat) Nat :=
  Game.constructor fleet "game1" (some alice)

/-- The match after bob has joined. -/
def joined : Game (List Nat) (List Nat) Nat :=
  (created.join fleet (some bob)).2

/-- The match after `start()`: alice is to shoot at bob's board. -/
def started : Game (List Nat) (List Nat) Nat :=
  (joined.start fleet).2

/-- The match after alice has hit cell 3 of bob's board: one cell is left. -/
def afterHit : Game (List Nat) (List Nat) Nat :=
  (started.makeShot fleet (some alice) 3).2

/-- The match after alice has also hit cell 5: bob's board is finished. -/
def finished : Game (List Nat) (List Nat) Nat :=
  (afterHit.makeShot fleet (some alice) 5).2

/-- The match alice created, after `destroy()`. -/
def destroyed : Game (List Nat) (List Nat) Nat :=
  (created.destroy fleet).2

/-- The match after alice has hit cell 5 of bob's board first: cell 3 is
left. -/
def afterHit5 : Game (List Nat) (List Nat) Nat :=
  (started.makeShot fleet (some alice) 5).2

/-- The match after bob, who had joined, has left again. -/
def departed : Game (List Nat) (List Nat) Nat :=
  (joined.leave fleet (some bob)).2

/-- The match after bob has left and carol has joined in his place. -/
def replaced : Game (List Nat) (List Nat) Nat :=
  (departed.join fleet (some carol)).2

/-! ## Lemmas on the map, the dispatch and the notification -/

section Lemmas

variable {Board Position Snap PubSnap : Type}
variable (bc : BoardContract Board Position Snap PubSnap)

theorem mapGet_mapSet_self {V : Type} (m : List (PlayerRef × V)) (k : PlayerRef) (v : V) :
    mapGet (mapSet m k v) k = some v := by
  induction m with
  | nil => simp [mapSet, mapGet]
  | cons hd tl ih =>
    obtain ⟨k0, v0⟩ := hd
    by_cases h : k0 = k
    · simp [mapSet, mapGet, h]
    · simp [mapSet, mapGet, h, ih]

theorem mapGet_mapSet_of_ne {V : Type} (m : List (PlayerRef × V)) (k k' : PlayerRef) (v : V)
    (hne : k' ≠ k) : mapGet (mapSet m k v) k' = mapGet m k' := by
  induction m with
  | nil =>
    have h : ¬ k = k' := fun e => hne e.symm
    simp [mapSet, mapGet, h]
  | cons hd tl ih =>
    obtain ⟨k0, v0⟩ := hd
    by_cases h : k0 = k
    · subst h
      have h' : ¬ k0 = k' := fun e => hne e.symm
      simp [mapSet, mapGet, h']
    · by_cases h2 : k0 = k'
      · subst h2
        simp [mapSet, mapGet, h]
      · simp [mapSet, mapGet, h, h2, ih]

/-- The machine a facade trigger leaves behind is the one the dispatch leaves. -/
theorem send_machine (g : Game Board Snap PubSnap) (c : Call Position) :
    (g.send bc c).2.machine = (g.machine.fire bc c).2 := by
  unfold Game.send
  rcases hf : g.machine.fire bc c with ⟨r, m⟩
  cases r with
  | threw e => rfl
  | returned =>
    simp only
    split <;> rfl

/-- A trigger never touches `_owner`. -/
theorem send_owner (g : Game Board Snap PubSnap) (c : Call Position) :
    (g.send bc c).2.owner = g.owner := by
  unfold Game.send
  rcases hf : g.machine.fire bc c with ⟨r, m⟩
  cases r with
  | threw e => rfl
  | returned =>
    simp only
    split <;> rfl

/-- A trigger the machine rejects leaves the whole match as it was. -/
theorem send_of_fire_threw (g : Game Board Snap PubSnap) (c : Call Position) (e : Failure)
    (hf : g.machine.fire bc c = (.threw e, g.machine)) :
    g.send bc c = (.threw e, g) := by
  unfold Game.send
  rw [hf]

/-- A trigger the machine accepts returns when the snapshot for the
notification can be computed. -/
theorem send_of_fire_returned (g : Game Board Snap PubSnap) (c : Call Position)
    (m : Machine Board) (s : GameState Snap PubSnap)
    (hf : g.machine.fire bc c = (.returned, m))
    (hs : Game.getGameState bc { g with machine := m } = .ok s) :
    g.send bc c = (.returned, { g with machine := m, updates := g.updates ++ [s] }) := by
  unfold Game.send
  rw [hf]
  simp only [hs]

/-- The snapshot of a match whose `current` is a player object: it never throws,
and `winnerId` is that player's id exactly when the waiting player's board
reports all ships destroyed. -/
theorem getGameState_of_current (g : Game Board Snap PubSnap) (p : Player)
    (hcur : g.machine.current = some p) :
    ∃ s, g.getGameState bc = .ok s ∧ s.state = g.machine.state ∧
      s.winnerId =
        if ((mapGet g.machine.boards g.machine.waiting).map bc.isAllShipsDestroyed).getD false
        then p.id else none := by
  unfold Game.getGameState Game.getBoard Game.getWaitingPlayer Game.getCurrentPlayer Game.getState
  simp only [hcur]
  split <;> exact ⟨_, rfl, rfl, rfl⟩

/-- The snapshot of a match whose waiting player has no board, or a board that
is not finished: it never throws and names no winner. -/
theorem getGameState_of_not_finished (g : Game Board Snap PubSnap)
    (hw : ((mapGet g.machine.boards g.machine.waiting).map bc.isAllShipsDestroyed).getD false
      = false) :
    ∃ s, g.getGameState bc = .ok s ∧ s.state = g.machine.state ∧ s.winnerId = none := by
  unfold Game.getGameState Game.getBoard Game.getWaitingPlayer Game.getCurrentPlayer Game.getState
  simp only [hw]
  exact ⟨_, rfl, rfl, rfl⟩

/-- The shot-resolution handler, run in PLAYER_TURN by the current player on a
waiting player that has a board. -/
theorem fire_makeShot (m : Machine Board) (player : PlayerRef) (position : Position)
    (board : Board) (hstate : m.state = .PLAYER_TURN) (hcur : m.current = player)
    (hboard : mapGet m.boards m.waiting = some board) :
    m.fire bc (.makeShot player position) =
      (.returned,
        if bc.isAllShipsDestroyed (bc.processShoot board position).1 then
          { m with boards := mapSet m.boards m.waiting (bc.processShoot board position).1,
                   state := .FINISHED }
        else if (bc.processShoot board position).2 = .MISS then
          { m with boards := mapSet m.boards m.waiting (bc.processShoot board position).1,
                   current := m.waiting, waiting := m.current, state := .PLAYER_TURN }
        else
          { m with boards := mapSet m.boards m.waiting (bc.processShoot board position).1,
                   state := .PLAYER_TURN }) := by
  unfold Machine.fire
  rw [hstate]
  simp only [transitions, transitionToReturned, hcur, hboard, ne_eq, not_true_eq_false,
    if_false, switchPlayer]
  by_cases hd : bc.isAllShipsDestroyed (bc.processShoot board position).1 = true
  · simp [hd]
  · by_cases hm : (bc.processShoot board position).2 = .MISS
    · simp [hd, hm]
    · simp [hd, hm]

/-- The shot-resolution handler rejects every player but the current one and
leaves the machine as it was. -/
theorem fire_makeShot_other (m : Machine Board) (player : PlayerRef) (position : Position)
    (hstate : m.state = .PLAYER_TURN) (hne : player ≠ m.current) :
    m.fire bc (.makeShot player position) = (.threw .otherPlayerTurn, m) := by
  unfold Machine.fire
  rw [hstate]
  simp [transitions, transitionToReturned, hne]

/-- A trigger the machine accepts returns when it leaves a player object in
`current`: the snapshot for the notification is then computed without error. -/
theorem send_returned_of_current (g : Game Board Snap PubSnap) (c : Call Position)
    (m : Machine Board) (p : Player)
    (hf : g.machine.fire bc c = (.returned, m)) (hcur : m.current = some p) :
    (g.send bc c).1 = .returned := by
  obtain ⟨s, hs, -, -⟩ := getGameState_of_current bc ({ g with machine := m }) p hcur
  rw [send_of_fire_returned bc g c m s hf hs]

/-- A trigger the machine accepts returns when the waiting player it leaves has
no board or an unfinished one. -/
theorem send_returned_of_not_finished (g : Game Board Snap PubSnap) (c : Call Position)
    (m : Machine Board)
    (hf : g.machine.fire bc c = (.returned, m))
    (hw : ((mapGet m.boards m.waiting).map bc.isAllShipsDestroyed).getD false = false) :
    (g.send bc c).1 = .returned := by
  obtain ⟨s, hs, -, -⟩ := getGameState_of_not_finished bc ({ g with machine := m }) hw
  rw [send_of_fire_returned bc g c m s hf hs]

/-- Shot resolution, the finishing case. -/
theorem fire_makeShot_finish (m : Machine Board) (player : PlayerRef) (position : Position)
    (board : Board) (hstate : m.state = .PLAYER_TURN) (hcur : m.current = player)
    (hboard : mapGet m.boards m.waiting = some board)
    (hdone : bc.isAllShipsDestroyed (bc.processShoot board position).1 = true) :
    m.fire bc (.makeShot player position) =
      (.returned,
        { m with boards := mapSet m.boards m.waiting (bc.processShoot board position).1,
                 state := .FINISHED }) := by
  rw [fire_makeShot bc m player position board hstate hcur hboard]
  simp [hdone]

/-- Shot resolution, a miss that does not finish the board. -/
theorem fire_makeShot_miss (m : Machine Board) (player : PlayerRef) (position : Position)
    (board : Board) (hstate : m.state = .PLAYER_TURN) (hcur : m.current = player)
    (hboard : mapGet m.boards m.waiting = some board)
    (halive : bc.isAllShipsDestroyed (bc.processShoot board position).1 = false)
    (hmiss : (bc.processShoot board position).2 = .MISS) :
    m.fire bc (.makeShot player position) =
      (.returned,
        { m with boards := mapSet m.boards m.waiting (bc.processShoot board position).1,
                 current := m.waiting, waiting := m.current, state := .PLAYER_TURN }) := by
  rw [fire_makeShot bc m player position board hstate hcur hboard]
  simp [halive, hmiss]

/-- Shot resolution, any other result that does not finish the board. -/
theorem fire_makeShot_hit (m : Machine Board) (player : PlayerRef) (position : Position)
    (board : Board) (hstate : m.state = .PLAYER_TURN) (hcur : m.current = player)
    (hboard : mapGet m.boards m.waiting = some board)
    (halive : bc.isAllShipsDestroyed (bc.processShoot board position).1 = false)
    (hhit : (bc.processShoot board position).2 ≠ .MISS) :
    m.fire bc (.makeShot player position) =
      (.returned,
        { m with boards := mapSet m.boards m.waiting (bc.processShoot board position).1,
                 state := .PLAYER_TURN }) := by
  rw [fire_makeShot bc m player position board hstate hcur hboard]
  simp [halive, hhit]

end Lemmas

/-! ## The laws of shot resolution -/

section ShotLaws

variable {Board Position Snap PubSnap : Type}
variable (bc : BoardContract Board Position Snap PubSnap)

/-- C1: turn-swap law. In state PLAYER_TURN with `current = P` and
`waiting = Q`, when the shot of `P` at `position` resolves on the board of `Q`
to MISS and that board does not report all ships destroyed afterwards,
`makeShot(P, position)` returns, the state is still PLAYER_TURN, `current` is
`Q` and `waiting` is `P`. -/
theorem makeShot_miss_swaps_turn (g : Game Board Snap PubSnap) (P Q : Player)
    (position : Position) (board : Board)
    (hstate : g.getState = .PLAYER_TURN)
    (hcur : g.getCurrentPlayer = some P) (hwait : g.getWaitingPlayer = some Q)
    (hboard : g.getBoard (some Q) = some board)
    (hmiss : (bc.processShoot board position).2 = .MISS)
    (halive : bc.isAllShipsDestroyed (bc.processShoot board position).1 = false) :
    (g.makeShot bc (some P) position).1 = .returned ∧
    (g.makeShot bc (some P) position).2.getState = .PLAYER_TURN ∧
    (g.makeShot bc (some P) position).2.getCurrentPlayer = some Q ∧
    (g.makeShot bc (some P) position).2.getWaitingPlayer = some P := by
  unfold Game.getState at hstate
  unfold Game.getCurrentPlayer at hcur
  unfold Game.getWaitingPlayer at hwait
  unfold Game.getBoard at hboard
  rw [← hwait] at hboard
  have hf := fire_makeShot_miss bc g.machine (some P) position board hstate hcur hboard
    halive hmiss
  refine ⟨?_, ?_, ?_, ?_⟩
  · exact send_returned_of_current bc g _ _ Q hf hwait
  · unfold Game.getState Game.makeShot
    rw [send_machine, hf]
  · unfold Game.getCurrentPlayer Game.makeShot
    rw [send_machine, hf]
    exact hwait
  · unfold Game.getWaitingPlayer Game.makeShot
    rw [send_machine, hf]
    exact hcur

/-- The turn-swap law on the started match: alice misses at cell 0, bob is
next. -/
theorem makeShot_miss_swaps_turn_witness :
    (started.makeShot fleet (some alice) 0).1 = .returned ∧
    (started.makeShot fleet (some alice) 0).2.getState = .PLAYER_TURN ∧
    (started.makeShot fleet (some alice) 0).2.getCurrentPlayer = some bob ∧
    (started.makeShot fleet (some alice) 0).2.getWaitingPlayer = some alice :=
  makeShot_miss_swaps_turn fleet started alice bob 0 [3, 5] (by decide) (by decide)
    (by decide) (by decide) (by decide) (by decide)

/-- C2: extra-turn law. In state PLAYER_TURN with `current = P` and
`waiting = Q`, when the shot of `P` at `position` resolves on the board of `Q`
to any result other than MISS (HIT in particular) and that board does not
report all ships destroyed afterwards, `makeShot(P, position)` returns, the
state is still PLAYER_TURN and `current` and `waiting` are unchanged. -/
theorem makeShot_hit_keeps_turn (g : Game Board Snap PubSnap) (P Q : Player)
    (position : Position) (board : Board)
    (hstate : g.getState = .PLAYER_TURN)
    (hcur : g.getCurrentPlayer = some P) (hwait : g.getWaitingPlayer = some Q)
    (hboard : g.getBoard (some Q) = some board)
    (hhit : (bc.processShoot board position).2 ≠ .MISS)
    (halive : bc.isAllShipsDestroyed (bc.processShoot board position).1 = false) :
    (g.makeShot bc (some P) position).1 = .returned ∧
    (g.makeShot bc (some P) position).2.getState = .PLAYER_TURN ∧
    (g.makeShot bc (some P) position).2.getCurrentPlayer = some P ∧
    (g.makeShot bc (some P) position).2.getWaitingPlayer = some Q := by
  unfold Game.getState at hstate
  unfold Game.getCurrentPlayer at hcur
  unfold Game.getWaitingPlayer at hwait
  unfold Game.getBoard at hboard
  rw [← hwait] at hboard
  have hf := fire_makeShot_hit bc g.machine (some P) position board hstate hcur hboard
    halive hhit
  refine ⟨?_, ?_, ?_, ?_⟩
  · exact send_returned_of_current bc g _ _ P hf hcur
  · unfold Game.getState Game.makeShot
    rw [send_machine, hf]
  · unfold Game.getCurrentPlayer Game.makeShot
    rw [send_machine, hf]
    exact hcur
  · unfold Game.getWaitingPlayer Game.makeShot
    rw [send_machine, hf]
    exact hwait

/-- The extra-turn law on the started match: alice hits cell 3 of bob's board,
cell 5 is left, and alice shoots again. -/
theorem makeShot_hit_keeps_turn_witness :
    (started.makeShot fleet (some alice) 3).1 = .returned ∧
    (started.makeShot fleet (some alice) 3).2.getState = .PLAYER_TURN ∧
    (started.makeShot fleet (some alice) 3).2.getCurrentPlayer = some alice ∧
    (started.makeShot fleet (some alice) 3).2.getWaitingPlayer = some bob :=
  makeShot_hit_keeps_turn fleet started alice bob 3 [3, 5] (by decide) (by decide)
    (by decide) (by decide) (by decide) (by decide)

/-- C3: termination law. In state PLAYER_TURN with `current = P`, when the
waiting player's board reports all ships destroyed after the shot of `P` at
`position`, whatever the shot's result, `makeShot(P, position)` returns, the
state becomes FINISHED, `current` and `waiting` are not swapped, and
`getGameState().winnerId` is `P.getId()`. -/
theorem makeShot_finishing_shot_wins (g : Game Board Snap PubSnap) (P : Player)
    (position : Position) (board : Board)
    (hstate : g.getState = .PLAYER_TURN)
    (hcur : g.getCurrentPlayer = some P)
    (hboard : g.getBoard g.getWaitingPlayer = some board)
    (hdone : bc.isAllShipsDestroyed (bc.processShoot board position).1 = true) :
    (g.makeShot bc (some P) position).1 = .returned ∧
    (g.makeShot bc (some P) position).2.getState = .FINISHED ∧
    (g.makeShot bc (some P) position).2.getCurrentPlayer = g.getCurrentPlayer ∧
    (g.makeShot bc (some P) position).2.getWaitingPlayer = g.getWaitingPlayer ∧
    ∃ s, (g.makeShot bc (some P) position).2.getGameState bc = .ok s ∧
      s.state = .FINISHED ∧ s.winnerId = P.id := by
  unfold Game.getState at hstate
  unfold Game.getCurrentPlayer at hcur
  unfold Game.getBoard Game.getWaitingPlayer at hboard
  have hf := fire_makeShot_finish bc g.machine (some P) position board hstate hcur hboard
    hdone
  have hm : (g.makeShot bc (some P) position).2.machine =
      { g.machine with
          boards := mapSet g.machine.boards g.machine.waiting (bc.processShoot board position).1,
          state := .FINISHED } := by
    unfold Game.makeShot
    rw [send_machine, hf]
  refine ⟨?_, ?_, ?_, ?_, ?_⟩
  · exact send_returned_of_current bc g _ _ P hf hcur
  · unfold Game.getState
    rw [hm]
  · unfold Game.getCurrentPlayer
    rw [hm]
  · unfold Game.getWaitingPlayer
    rw [hm]
  · have hc : (g.makeShot bc (some P) position).2.machine.current = some P := by
      rw [hm]
      exact hcur
    obtain ⟨s, hs, hst, hw⟩ :=
      getGameState_of_current bc (g.makeShot bc (some P) position).2 P hc
    refine ⟨s, hs, ?_, ?_⟩
    · rw [hst, hm]
    · rw [hw, hm]
      simp [mapGet_mapSet_self, hdone]

/-- The termination law on the match in which one cell of bob's board is left:
alice hits cell 5 and wins. -/
theorem makeShot_finishing_shot_wins_witness :
    (afterHit.makeShot fleet (some alice) 5).1 = .returned ∧
    (afterHit.makeShot fleet (some alice) 5).2.getState = .FINISHED ∧
    (afterHit.makeShot fleet (some alice) 5).2.getCurrentPlayer = afterHit.getCurrentPlayer ∧
    (afterHit.makeShot fleet (some alice) 5).2.getWaitingPlayer = afterHit.getWaitingPlayer ∧
    ∃ s, (afterHit.makeShot fleet (some alice) 5).2.getGameState fleet = .ok s ∧
      s.state = .FINISHED ∧ s.winnerId = alice.id :=
  makeShot_finishing_shot_wins fleet afterHit alice 5 [5] (by decide) (by decide)
    (by decide) (by decide)

/-- C4: turn violation. In state PLAYER_TURN, `makeShot(X, position)` by any
`X` that is not the current player (the waiting player, a stranger, `null`)
throws, and the match after the failure is the match before it: state,
`playerA`, `playerB`, `current`, `waiting` and every board are unchanged. -/
theorem makeShot_out_of_turn_rejected (g : Game Board Snap PubSnap) (X : PlayerRef)
    (position : Position)
    (hstate : g.getState = .PLAYER_TURN) (hne : X ≠ g.getCurrentPlayer) :
    g.makeShot bc X position = (.threw .otherPlayerTurn, g) := by
  unfold Game.getState at hstate
  unfold Game.getCurrentPlayer at hne
  unfold Game.makeShot
  exact send_of_fire_threw bc g _ _ (fire_makeShot_other bc g.machine X position hstate hne)

/-- The turn violation on the started match: bob shoots while alice is the
current player. -/
theorem makeShot_out_of_turn_rejected_witness :
    started.makeShot fleet (some bob) 3 = (.threw .otherPlayerTurn, started) :=
  makeShot_out_of_turn_rejected fleet started (some bob) 3 (by decide) (by decide)

end ShotLaws

/-! ## The invariant of the matches a caller can hold -/

section Invariant

variable {Board Position Snap PubSnap : Type}
variable (bc : BoardContract Board Position Snap PubSnap)

/-- In FINISHED and in DESTROYED the dispatch rejects every trigger. -/
theorem fire_terminal (m : Machine Board) (c : Call Position)
    (hterm : m.state = .FINISHED ∨ m.state = .DESTROYED) :
    m.fire bc c = (.threw .illegalTransition, m) := by
  unfold Machine.fire
  rcases hterm with h | h <;> rw [h] <;> cases c <;> rfl

/-- The dispatch rejects `initialize` outside IDLE. -/
theorem fire_initialize_not_idle (m : Machine Board) (p : PlayerRef)
    (hstate : m.state ≠ .IDLE) :
    m.fire bc (.initialize_ p) = (.threw .illegalTransition, m) := by
  unfold Machine.fire
  cases hs : m.state <;> first | exact absurd hs hstate | rfl

/-- What `destroy` does: from the three states that define it the machine
enters DESTROYED and nothing else changes; elsewhere it is rejected. -/
theorem fire_destroy (m : Machine Board) :
    (m.fire bc (.destroy : Call Position) = (.returned, { m with state := .DESTROYED }) ∧
      (m.state = .AWAITING_PLAYER ∨ m.state = .AWAITING_START ∨ m.state = .PLAYER_TURN)) ∨
    (m.fire bc (.destroy : Call Position) = (.threw .illegalTransition, m) ∧
      (m.state = .IDLE ∨ m.state = .FINISHED ∨ m.state = .DESTROYED)) := by
  unfold Machine.fire
  cases hs : m.state <;> simp [transitions, transitionTo, Except.map]

/-- A facade trigger returns only when the dispatch accepted it. -/
theorem fire_returned_of_send (g : Game Board Snap PubSnap) (c : Call Position)
    (h : (g.send bc c).1 = .returned) : (g.machine.fire bc c).1 = .returned := by
  unfold Game.send at h
  rcases hf : g.machine.fire bc c with ⟨r, m⟩
  rw [hf] at h
  cases r with
  | threw e => simp at h
  | returned => rfl

/-- The dispatch keeps the machine invariant, for a `join` by a player that is
in neither slot and a `leave` in AWAITING_START by a player other than the
owner: the two conditions under which the facade forwards these triggers. -/
theorem fire_preserves (owner : Player) (m : Machine Board) (c : Call Position)
    (hinv : MachineInv owner m)
    (hjoin : ∀ p, c = .join p → p ≠ m.playerA ∧ p ≠ m.playerB)
    (hleave : ∀ p, c = .leave p → m.state = .AWAITING_START → p ≠ some owner) :
    MachineInv owner (m.fire bc c).2 := by
  obtain ⟨hidle, hA, hnull, hroles, hap, has, hpt⟩ := hinv
  cases hs : m.state with
  | IDLE => exact absurd hs hidle
  | FINISHED =>
    rw [fire_terminal bc m c (Or.inl hs)]
    exact ⟨hidle, hA, hnull, hroles, hap, has, hpt⟩
  | DESTROYED =>
    rw [fire_terminal bc m c (Or.inr hs)]
    exact ⟨hidle, hA, hnull, hroles, hap, has, hpt⟩
  | AWAITING_PLAYER =>
    obtain ⟨hB, hc, hw⟩ := hap hs
    cases c with
    | initialize_ p =>
      rw [fire_initialize_not_idle bc m p hidle]
      exact ⟨hidle, hA, hnull, hroles, hap, has, hpt⟩
    | start =>
      have : m.fire bc (.start : Call Position) = (.threw .illegalTransition, m) := by
        unfold Machine.fire
        rw [hs]
        rfl
      rw [this]
      exact ⟨hidle, hA, hnull, hroles, hap, has, hpt⟩
    | makeShot p pos =>
      have : m.fire bc (.makeShot p pos) = (.threw .illegalTransition, m) := by
        unfold Machine.fire
        rw [hs]
        rfl
      rw [this]
      exact ⟨hidle, hA, hnull, hroles, hap, has, hpt⟩
    | destroy =>
      have : m.fire bc (.destroy : Call Position) =
          (.returned, { m with state := .DESTROYED }) := by
        unfold Machine.fire
        rw [hs]
        rfl
      rw [this]
      exact ⟨by simp, hA, hnull, hroles, by simp, by simp, by simp⟩
    | leave p =>
      have : m.fire bc (.leave p : Call Position) =
          (.returned, { m with state := .DESTROYED }) := by
        unfold Machine.fire
        rw [hs]
        rfl
      rw [this]
      exact ⟨by simp, hA, hnull, hroles, by simp, by simp, by simp⟩
    | join p =>
      have : m.fire bc (.join p : Call Position) =
          (.returned, { m with playerB := p, boards := mapSet m.boards p bc.create,
                               state := .AWAITING_START }) := by
        unfold Machine.fire
        rw [hs]
        rfl
      rw [this]
      obtain ⟨hpA, hpB⟩ := hjoin p rfl
      rw [hB] at hpB
      rw [hA] at hpA
      obtain ⟨q, rfl⟩ := Option.ne_none_iff_exists'.mp hpB
      refine ⟨by simp, hA, ?_, Or.inl ⟨hc, hw⟩, by simp, ?_, by simp⟩
      · simp only
        rw [mapGet_mapSet_of_ne _ _ _ _ (by simp)]
        exact hnull
      · intro _
        exact ⟨⟨q, rfl, fun e => hpA (by rw [e])⟩, hc, hw⟩
  | AWAITING_START =>
    obtain ⟨⟨q, hB, hq⟩, hc, hw⟩ := has hs
    cases c with
    | initialize_ p =>
      rw [fire_initialize_not_idle bc m p hidle]
      exact ⟨hidle, hA, hnull, hroles, hap, has, hpt⟩
    | join p =>
      have : m.fire bc (.join p : Call Position) = (.threw .illegalTransition, m) := by
        unfold Machine.fire
        rw [hs]
        rfl
      rw [this]
      exact ⟨hidle, hA, hnull, hroles, hap, has, hpt⟩
    | makeShot p pos =>
      have : m.fire bc (.makeShot p pos) = (.threw .illegalTransition, m) := by
        unfold Machine.fire
        rw [hs]
        rfl
      rw [this]
      exact ⟨hidle, hA, hnull, hroles, hap, has, hpt⟩
    | destroy =>
      have : m.fire bc (.destroy : Call Position) =
          (.returned, { m with state := .DESTROYED }) := by
        unfold Machine.fire
        rw [hs]
        rfl
      rw [this]
      exact ⟨by simp, hA, hnull, hroles, by simp, by simp, by simp⟩
    | start =>
      have : m.fire bc (.start : Call Position) =
          (.returned, { m with current := m.playerA, waiting := m.playerB,
                               state := .PLAYER_TURN }) := by
        unfold Machine.fire
        rw [hs]
        rfl
      rw [this]
      refine ⟨by simp, hA, hnull, ?_, by simp, by simp, fun _ => ⟨owner, hA⟩⟩
      exact Or.inr ⟨owner, q, hA, hB, fun e => hq e.symm, Or.inl ⟨hA, hB⟩⟩
    | leave p =>
      have hpA : p ≠ m.playerA := by
        rw [hA]
        exact hleave p rfl hs
      by_cases hpB : p = m.playerB
      · have : m.fire bc (.leave p : Call Position) =
            (.returned, { m with playerB := none, state := .AWAITING_PLAYER }) := by
          unfold Machine.fire
          rw [hs]
          simp only [transitions, transitionTo, if_neg hpA, if_pos hpB, Except.map]
        rw [this]
        exact ⟨by simp, hA, hnull, Or.inl ⟨hc, hw⟩, fun _ => ⟨rfl, hc, hw⟩, by simp, by simp⟩
      · have : ∃ e, m.fire bc (.leave p : Call Position) = (.threw e, m) := by
          unfold Machine.fire
          rw [hs]
          cases p with
          | none => exact ⟨.typeError, by simp [transitions, transitionTo, hpA, hpB, Except.map]⟩
          | some x => exact ⟨.notInGame, by simp [transitions, transitionTo, hpA, hpB, Except.map]⟩
        obtain ⟨e, this⟩ := this
        rw [this]
        exact ⟨hidle, hA, hnull, hroles, hap, has, hpt⟩
  | PLAYER_TURN =>
    obtain ⟨p0, hc⟩ := hpt hs
    cases c with
    | initialize_ p =>
      rw [fire_initialize_not_idle bc m p hidle]
      exact ⟨hidle, hA, hnull, hroles, hap, has, hpt⟩
    | join p =>
      have : m.fire bc (.join p : Call Position) = (.threw .illegalTransition, m) := by
        unfold Machine.fire
        rw [hs]
        rfl
      rw [this]
      exact ⟨hidle, hA, hnull, hroles, hap, has, hpt⟩
    | start =>
      have : m.fire bc (.start : Call Position) = (.threw .illegalTransition, m) := by
        unfold Machine.fire
        rw [hs]
        rfl
      rw [this]
      exact ⟨hidle, hA, hnull, hroles, hap, has, hpt⟩
    | destroy =>
      have : m.fire bc (.destroy : Call Position) =
          (.returned, { m with state := .DESTROYED }) := by
        unfold Machine.fire
        rw [hs]
        rfl
      rw [this]
      exact ⟨by simp, hA, hnull, hroles, by simp, by simp, by simp⟩
    | leave p =>
      have : m.fire bc (.leave p : Call Position) =
          (.returned, { m with state := .DESTROYED }) := by
        unfold Machine.fire
        rw [hs]
        rfl
      rw [this]
      exact ⟨by simp, hA, hnull, hroles, by simp, by simp, by simp⟩
    | makeShot player pos =>
      rcases hroles with ⟨hcn, -⟩ | ⟨p, q, hcp, hwq, hpq, hslots⟩
      · rw [hc] at hcn
        exact absurd hcn (by simp)
      by_cases hturn : player = m.current
      · cases hb : mapGet m.boards m.waiting with
        | none =>
          have : m.fire bc (.makeShot player pos) = (.threw .typeError, m) := by
            unfold Machine.fire
            rw [hs]
            simp [transitions, transitionToReturned, hturn, hb]
          rw [this]
          exact ⟨hidle, hA, hnull, Or.inr ⟨p, q, hcp, hwq, hpq, hslots⟩, hap, has, hpt⟩
        | some board =>
          have hnull' : mapGet (mapSet m.boards m.waiting (bc.processShoot board pos).1) none
              = none := by
            rw [mapGet_mapSet_of_ne _ _ _ _ (by rw [hwq]; simp)]
            exact hnull
          rw [fire_makeShot bc m player pos board hs hturn.symm hb]
          by_cases hd : bc.isAllShipsDestroyed (bc.processShoot board pos).1 = true
          · simp only [hd, if_true]
            exact ⟨by simp, hA, hnull', Or.inr ⟨p, q, hcp, hwq, hpq, hslots⟩, by simp, by simp,
              by simp⟩
          · by_cases hm : (bc.processShoot board pos).2 = .MISS
            · simp only [hd, hm, if_true, if_false]
              refine ⟨by simp, hA, hnull', Or.inr ⟨q, p, hwq, hcp, fun e => hpq e.symm, ?_⟩,
                by simp, by simp, fun _ => ⟨q, hwq⟩⟩
              rcases hslots with h | h
              · exact Or.inr h
              · exact Or.inl h
            · simp only [hd, hm, if_false]
              exact ⟨by simp, hA, hnull', Or.inr ⟨p, q, hcp, hwq, hpq, hslots⟩, by simp, by simp,
                fun _ => ⟨p, hcp⟩⟩
      · rw [fire_makeShot_other bc m player pos hs hturn]
        exact ⟨hidle, hA, hnull, Or.inr ⟨p, q, hcp, hwq, hpq, hslots⟩, hap, has, hpt⟩

/-- A facade trigger keeps the invariant, under the conditions of
`fire_preserves`. -/
theorem send_preserves (owner : Player) (g : Game Board Snap PubSnap) (c : Call Position)
    (hinv : GameInv owner g)
    (hjoin : ∀ p, c = .join p → p ≠ g.machine.playerA ∧ p ≠ g.machine.playerB)
    (hleave : ∀ p, c = .leave p → g.machine.state = .AWAITING_START → p ≠ some owner) :
    GameInv owner (g.send bc c).2 := by
  refine ⟨?_, ?_, ?_⟩
  · rw [send_machine]
    exact fire_preserves bc owner g.machine c hinv.machine hjoin hleave
  · rw [send_machine, send_owner]
    intro hne
    by_cases hd : g.machine.state = .DESTROYED
    · rw [fire_terminal bc g.machine c (Or.inr hd)] at hne
      exact absurd hd hne
    · exact hinv.ownerKept hd
  · rw [send_owner]
    exact hinv.ownerOrNull

/-- Clearing `_owner` on a destroyed match keeps the invariant. -/
theorem clear_owner_preserves (owner : Player) (g : Game Board Snap PubSnap)
    (hinv : GameInv owner g) (hd : g.machine.state = .DESTROYED) :
    GameInv owner { g with owner := none } :=
  ⟨hinv.machine, fun hne => absurd hd hne, Or.inr rfl⟩

/-- The match the constructor builds for a non-null owner meets the
invariant. -/
theorem constructor_inv (id : String) (owner : Player) :
    GameInv owner (Game.constructor bc id (some owner) : Game Board Snap PubSnap) := by
  refine ⟨⟨?_, ?_, ?_, ?_, ?_, ?_, ?_⟩, ?_, ?_⟩ <;>
    simp [Game.constructor, Machine.fire, createGame, transitions, transitionTo, Except.map,
      mapSet, mapGet, RolesOK]

/-- Every facade call keeps the invariant, whether it returns or throws. -/
theorem call_preserves (owner : Player) (g : Game Board Snap PubSnap)
    (c : FacadeCall Position) (hinv : GameInv owner g) :
    GameInv owner (g.call bc c).2 := by
  cases c with
  | initialize_ =>
    exact send_preserves bc owner g _ hinv (fun p h => by cases h) (fun p h => by cases h)
  | start =>
    exact send_preserves bc owner g _ hinv (fun p h => by cases h) (fun p h => by cases h)
  | destroy =>
    exact send_preserves bc owner g _ hinv (fun p h => by cases h) (fun p h => by cases h)
  | makeShot player target =>
    exact send_preserves bc owner g _ hinv (fun p h => by cases h) (fun p h => by cases h)
  | join player =>
    show GameInv owner (g.join bc player).2
    unfold Game.join
    by_cases hp : player = g.machine.playerA ∨ player = g.machine.playerB
    · rw [if_pos hp]
      exact hinv
    · rw [if_neg hp]
      refine send_preserves bc owner g _ hinv (fun p h => ?_) (fun p h => by cases h)
      cases h
      exact ⟨fun e => hp (Or.inl e), fun e => hp (Or.inr e)⟩
  | leave player =>
    show GameInv owner (g.leave bc player).2
    unfold Game.leave
    by_cases hp : player = g.owner
    · rw [if_pos hp]
      have hpre := send_preserves bc owner g (.destroy : Call Position) hinv
        (fun p h => by cases h) (fun p h => by cases h)
      rcases hsend : g.send bc (.destroy : Call Position) with ⟨r, g'⟩
      rw [hsend] at hpre
      cases r with
      | threw e => exact hpre
      | returned =>
        have hret : (g.send bc (.destroy : Call Position)).1 = .returned := by rw [hsend]
        have hfire := fire_returned_of_send bc g _ hret
        have hm : g'.machine = (g.machine.fire bc (.destroy : Call Position)).2 := by
          rw [← send_machine, hsend]
        rcases @fire_destroy Board Position Snap PubSnap bc g.machine with ⟨hf, -⟩ | ⟨hf, -⟩
        · refine clear_owner_preserves owner g' hpre ?_
          rw [hm, hf]
        · rw [hf] at hfire
          cases hfire
    · rw [if_neg hp]
      have hpre := send_preserves bc owner g (.leave player : Call Position) hinv
        (fun p h => by cases h) (fun p h hs => by
          cases h
          have ho := hinv.ownerKept (by rw [hs]; decide)
          rw [ho] at hp
          exact hp)
      rcases hsend : g.send bc (.leave player : Call Position) with ⟨r, g'⟩
      rw [hsend] at hpre
      cases r with
      | threw e => exact hpre
      | returned =>
        simp only
        by_cases hd : g'.getState = .DESTROYED
        · rw [if_pos hd]
          exact clear_owner_preserves owner g' hpre hd
        · rw [if_neg hd]
          exact hpre

/-- Every match a caller can hold meets the invariant. -/
theorem reachable_inv (id : String) (owner : Player) (g : Game Board Snap PubSnap)
    (hreach : Reachable bc id owner g) : GameInv owner g := by
  induction hreach with
  | constructed => exact constructor_inv bc id owner
  | call g c _ ih => exact call_preserves bc owner g c ih

/-- The shot-resolution handler, when it returns, leaves the board map with the
waiting player's board replaced by the board after the shot. -/
theorem fire_makeShot_boards (m : Machine Board) (player : PlayerRef) (position : Position)
    (board : Board) (hstate : m.state = .PLAYER_TURN) (hcur : m.current = player)
    (hboard : mapGet m.boards m.waiting = some board) :
    (m.fire bc (.makeShot player position)).2.boards =
      mapSet m.boards m.waiting (bc.processShoot board position).1 := by
  rw [fire_makeShot bc m player position board hstate hcur hboard]
  simp only
  split
  · rfl
  · split <;> rfl

/-- The shot-resolution handler throws when the waiting player has no board. -/
theorem fire_makeShot_no_board (m : Machine Board) (player : PlayerRef) (position : Position)
    (hstate : m.state = .PLAYER_TURN) (hcur : m.current = player)
    (hboard : mapGet m.boards m.waiting = none) :
    m.fire bc (.makeShot player position) = (.threw .typeError, m) := by
  unfold Machine.fire
  rw [hstate]
  simp [transitions, transitionToReturned, hcur, hboard]

end Invariant

/-! ## The concrete matches are matches a caller can hold -/

theorem created_reachable : Reachable fleet "game1" alice created :=
  Reachable.constructed

theorem joined_reachable : Reachable fleet "game1" alice joined :=
  Reachable.call created (.join (some bob)) created_reachable

theorem started_reachable : Reachable fleet "game1" alice started :=
  Reachable.call joined .start joined_reachable

theorem afterHit_reachable : Reachable fleet "game1" alice afterHit :=
  Reachable.call started (.makeShot (some alice) 3) started_reachable

theorem finished_reachable : Reachable fleet "game1" alice finished :=
  Reachable.call afterHit (.makeShot (some alice) 5) afterHit_reachable

theorem destroyed_reachable : Reachable fleet "game1" alice destroyed :=
  Reachable.call created .destroy created_reachable

theorem afterHit5_reachable : Reachable fleet "game1" alice afterHit5 :=
  Reachable.call started (.makeShot (some alice) 5) started_reachable

theorem departed_reachable : Reachable fleet "game1" alice departed :=
  Reachable.call joined (.leave (some bob)) joined_reachable

theorem replaced_reachable : Reachable fleet "game1" alice replaced :=
  Reachable.call departed (.join (some carol)) departed_reachable

/-! ## Roles and boards -/

section Roles

variable {Board Position Snap PubSnap : Type}
variable (bc : BoardContract Board Position Snap PubSnap)

/-- C5: role invariant. On every match built by the constructor for a non-null
owner and then driven by any finite sequence of facade calls (failed calls
included, any arguments), `current` and `waiting` are both `null`, or they are
two distinct players and the set of the two is the set of `playerA` and
`playerB`. -/
theorem roles_invariant (id : String) (owner : Player) (g : Game Board Snap PubSnap)
    (hreach : Reachable bc id owner g) :
    (g.getCurrentPlayer = none ∧ g.getWaitingPlayer = none) ∨
    (∃ p q : Player, g.getCurrentPlayer = some p ∧ g.getWaitingPlayer = some q ∧ p ≠ q ∧
      ({g.getCurrentPlayer, g.getWaitingPlayer} : Set PlayerRef) =
        {g.machine.playerA, g.machine.playerB}) := by
  unfold Game.getCurrentPlayer Game.getWaitingPlayer
  rcases (reachable_inv bc id owner g hreach).machine.roles with h | ⟨p, q, hp, hq, hne, hslots⟩
  · exact Or.inl h
  · refine Or.inr ⟨p, q, hp, hq, hne, ?_⟩
    rcases hslots with ⟨hA, hB⟩ | ⟨hA, hB⟩
    · rw [hp, hq, hA, hB]
    · rw [hp, hq, hA, hB]
      exact Set.pair_comm _ _

/-- The role invariant on the started match: alice and bob hold the two
roles. -/
theorem roles_invariant_witness :
    (started.getCurrentPlayer = none ∧ started.getWaitingPlayer = none) ∨
    (∃ p q : Player, started.getCurrentPlayer = some p ∧ started.getWaitingPlayer = some q ∧
      p ≠ q ∧
      ({started.getCurrentPlayer, started.getWaitingPlayer} : Set PlayerRef) =
        {started.machine.playerA, started.machine.playerB}) :=
  roles_invariant fleet "game1" alice started started_reachable

/-- C6: shot target. On a match a caller can hold, in state PLAYER_TURN with
`current = P` and `waiting = Q`, a `makeShot(P, position)` that returns has
applied `processShoot(position)` once, to the board mapped to `Q`: the map
after the call is the map before it with that one board replaced, so the board
mapped to `P` and every other entry are unchanged. -/
theorem makeShot_targets_waiting_board (id : String) (owner : Player)
    (g : Game Board Snap PubSnap) (hreach : Reachable bc id owner g) (P Q : Player)
    (position : Position)
    (hstate : g.getState = .PLAYER_TURN)
    (hcur : g.getCurrentPlayer = some P) (hwait : g.getWaitingPlayer = some Q)
    (hok : (g.makeShot bc (some P) position).1 = .returned) :
    ∃ board, g.getBoard (some Q) = some board ∧
      (g.makeShot bc (some P) position).2.machine.boards =
        mapSet g.machine.boards (some Q) (bc.processShoot board position).1 ∧
      (g.makeShot bc (some P) position).2.getBoard (some Q) =
        some (bc.processShoot board position).1 ∧
      (g.makeShot bc (some P) position).2.getBoard (some P) = g.getBoard (some P) ∧
      ∀ k : PlayerRef, k ≠ some Q →
        (g.makeShot bc (some P) position).2.getBoard k = g.getBoard k := by
  unfold Game.getState at hstate
  unfold Game.getCurrentPlayer at hcur
  unfold Game.getWaitingPlayer at hwait
  have hPQ : P ≠ Q := by
    rcases (reachable_inv bc id owner g hreach).machine.roles with ⟨h, -⟩ | ⟨p, q, hp, hq, hne, -⟩
    · rw [hcur] at h
      cases h
    · rw [hcur] at hp
      rw [hwait] at hq
      cases hp
      cases hq
      exact hne
  cases hb : mapGet g.machine.boards g.machine.waiting with
  | none =>
    have hf := fire_makeShot_no_board bc g.machine (some P) position hstate hcur hb
    have := send_of_fire_threw bc g _ _ hf
    unfold Game.makeShot at hok
    rw [this] at hok
    cases hok
  | some board =>
    have hboards : (g.makeShot bc (some P) position).2.machine.boards =
        mapSet g.machine.boards (some Q) (bc.processShoot board position).1 := by
      unfold Game.makeShot
      rw [send_machine, fire_makeShot_boards bc g.machine (some P) position board hstate hcur hb,
        hwait]
    rw [hwait] at hb
    refine ⟨board, hb, hboards, ?_, ?_, ?_⟩
    · unfold Game.getBoard
      rw [hboards, mapGet_mapSet_self]
    · unfold Game.getBoard
      rw [hboards, mapGet_mapSet_of_ne _ _ _ _ (fun e => hPQ (Option.some.inj e))]
    · intro k hk
      unfold Game.getBoard
      rw [hboards, mapGet_mapSet_of_ne _ _ _ _ hk]

/-- The shot target on the started match: alice hits cell 3, bob's board loses
that cell and alice's board is untouched. -/
theorem makeShot_targets_waiting_board_witness :
    ∃ board, started.getBoard (some bob) = some board ∧
      (started.makeShot fleet (some alice) 3).2.machine.boards =
        mapSet started.machine.boards (some bob) (fleet.processShoot board 3).1 ∧
      (started.makeShot fleet (some alice) 3).2.getBoard (some bob) =
        some (fleet.processShoot board 3).1 ∧
      (started.makeShot fleet (some alice) 3).2.getBoard (some alice) =
        started.getBoard (some alice) ∧
      ∀ k : PlayerRef, k ≠ some bob →
        (started.makeShot fleet (some alice) 3).2.getBoard k = started.getBoard k :=
  makeShot_targets_waiting_board fleet "game1" alice started started_reachable alice bob 3
    (by decide) (by decide) (by decide) (by decide)

end Roles

/-! ## Terminal states and the owner's leave -/

section Terminal

variable {Board Position Snap PubSnap : Type}
variable (bc : BoardContract Board Position Snap PubSnap)

/-- The object `getGameState()` returns is identical to no state string, so
`isOver()` returns `true` on no match at all. -/
theorem isOver_never_true (g : Game Board Snap PubSnap) : g.isOver bc ≠ .ok true := by
  unfold Game.isOver
  cases g.getGameState bc with
  | error e => simp
  | ok s => simp [strictEquals]

/-- C7: `isOver()` on a destroyed and on a finished match. The lifecycle state
is DESTROYED, respectively FINISHED, and `isOver()` returns `false`: it compares
the snapshot object of `getGameState()`, not `getState()`, with the state
strings. -/
theorem isOver_false_on_terminal_matches :
    destroyed.getState = .DESTROYED ∧ destroyed.isOver fleet = .ok false ∧
    finished.getState = .FINISHED ∧ finished.isOver fleet = .ok false := by
  refine ⟨by decide, ?_, by decide, ?_⟩
  · rfl
  · rfl

/-- A facade trigger on a match in FINISHED or DESTROYED throws and leaves the
match as it was. -/
theorem send_terminal (g : Game Board Snap PubSnap) (c : Call Position)
    (hterm : g.machine.state = .FINISHED ∨ g.machine.state = .DESTROYED) :
    g.send bc c = (.threw .illegalTransition, g) :=
  send_of_fire_threw bc g c _ (fire_terminal bc g.machine c hterm)

/-- C8: terminal states are absorbing. On a match whose state is FINISHED or
DESTROYED, every facade call (`initialize`, `start`, `join`, `leave`,
`makeShot`, `destroy`, any arguments), whether it throws or returns, leaves
the match as it was: state, `playerA`, `playerB`, `current`, `waiting`, every
board and the owner reference are unchanged. -/
theorem terminal_absorbing (g : Game Board Snap PubSnap) (c : FacadeCall Position)
    (hterm : g.getState = .FINISHED ∨ g.getState = .DESTROYED) :
    (g.call bc c).2 = g := by
  unfold Game.getState at hterm
  cases c with
  | initialize_ =>
    show (g.send bc (.initialize_ g.owner)).2 = g
    rw [send_terminal bc g _ hterm]
  | start =>
    show (g.send bc .start).2 = g
    rw [send_terminal bc g _ hterm]
  | destroy =>
    show (g.send bc .destroy).2 = g
    rw [send_terminal bc g _ hterm]
  | makeShot player target =>
    show (g.send bc (.makeShot player target)).2 = g
    rw [send_terminal bc g _ hterm]
  | join player =>
    show (g.join bc player).2 = g
    unfold Game.join
    split
    · rfl
    · rw [send_terminal bc g _ hterm]
  | leave player =>
    show (g.leave bc player).2 = g
    unfold Game.leave
    split
    · rw [send_terminal bc g _ hterm]
    · rw [send_terminal bc g _ hterm]

/-- Terminal states are absorbing, on the finished match: the owner's `leave`
changes nothing. -/
theorem terminal_absorbing_witness :
    (finished.call fleet (.leave (some alice))).2 = finished :=
  terminal_absorbing fleet finished (.leave (some alice)) (Or.inl (by decide))

/-- The owner's `leave` on a match that meets the invariant and is neither
FINISHED nor DESTROYED: the machine enters DESTROYED, one notification is
emitted and the owner reference is cleared. -/
theorem leave_owner_of_active (owner : Player) (g : Game Board Snap PubSnap)
    (hinv : GameInv owner g)
    (hactive : g.machine.state ≠ .FINISHED ∧ g.machine.state ≠ .DESTROYED) :
    ∃ s, g.leave bc (some owner) =
      (.returned, { g with machine := { g.machine with state := .DESTROYED },
                           updates := g.updates ++ [s], owner := none }) := by
  have hown : g.owner = some owner := hinv.ownerKept hactive.2
  rcases @fire_destroy Board Position Snap PubSnap bc g.machine with ⟨hf, -⟩ | ⟨-, hst⟩
  · have hsnap : ∃ s, Game.getGameState bc
        ({ g with machine := { g.machine with state := .DESTROYED } }) = .ok s := by
      rcases hinv.machine.roles with ⟨hc, hw⟩ | ⟨p, q, hp, -, -, -⟩
      · obtain ⟨s, hs, -, -⟩ := getGameState_of_not_finished bc
          ({ g with machine := { g.machine with state := .DESTROYED } })
          (by
            show ((mapGet g.machine.boards g.machine.waiting).map
              bc.isAllShipsDestroyed).getD false = false
            rw [hw, hinv.machine.noNullBoard]
            rfl)
        exact ⟨s, hs⟩
      · obtain ⟨s, hs, -, -⟩ := getGameState_of_current bc
          ({ g with machine := { g.machine with state := .DESTROYED } }) p hp
        exact ⟨s, hs⟩
    obtain ⟨s, hs⟩ := hsnap
    refine ⟨s, ?_⟩
    unfold Game.leave
    rw [if_pos hown.symm, send_of_fire_returned bc g _ _ s hf hs]
  · rcases hst with h | h | h
    · exact absurd h hinv.machine.notIdle
    · exact absurd h hactive.1
    · exact absurd h hactive.2

/-- The owner's `leave` on a match in FINISHED or DESTROYED whose owner
reference is set: `destroy` is rejected and the assignment that clears the
owner reference is not reached. -/
theorem leave_owner_of_terminal (g : Game Board Snap PubSnap)
    (hterm : g.machine.state = .FINISHED ∨ g.machine.state = .DESTROYED) :
    g.leave bc g.owner = (.threw .illegalTransition, g) := by
  unfold Game.leave
  rw [if_pos rfl, send_terminal bc g _ hterm]

/-- C9: owner-abandonment law. On every match a caller can hold (built by the
constructor for a non-null owner) whose state is neither FINISHED nor
DESTROYED, `leave(owner)` returns, the state becomes DESTROYED and
`getOwnerInfo()` returns `null` afterwards. -/
theorem owner_leave_abandons (id : String) (owner : Player) (g : Game Board Snap PubSnap)
    (hreach : Reachable bc id owner g)
    (hactive : g.getState ≠ .FINISHED ∧ g.getState ≠ .DESTROYED) :
    (g.leave bc (some owner)).1 = .returned ∧
    (g.leave bc (some owner)).2.getState = .DESTROYED ∧
    (g.leave bc (some owner)).2.getOwnerInfo = none := by
  obtain ⟨s, hs⟩ := leave_owner_of_active bc owner g (reachable_inv bc id owner g hreach) hactive
  rw [hs]
  exact ⟨rfl, rfl, rfl⟩

/-- The owner-abandonment law on the started match: alice leaves. -/
theorem owner_leave_abandons_witness :
    (started.leave fleet (some alice)).1 = .returned ∧
    (started.leave fleet (some alice)).2.getState = .DESTROYED ∧
    (started.leave fleet (some alice)).2.getOwnerInfo = none :=
  owner_leave_abandons fleet "game1" alice started started_reachable
    ⟨by decide, by decide⟩

/-- C10, as stated, fails on the finished match: the owner reference is set,
`leave(owner)` throws, the state stays FINISHED and the owner reference stays
set. -/
theorem owner_leave_on_finished_match :
    finished.owner = some alice ∧ finished.getState = .FINISHED ∧
    (finished.leave fleet (some alice)).1 = .threw .illegalTransition ∧
    (finished.leave fleet (some alice)).2.getState ≠ .DESTROYED ∧
    (finished.leave fleet (some alice)).2.owner ≠ none := by
  refine ⟨by decide, by decide, by decide, by decide, by decide⟩

/-- C10, amended: owner teardown outside the terminal states. On every match a
caller can hold whose owner reference is still set, `leave(owner)` in
AWAITING_PLAYER, AWAITING_START and PLAYER_TURN returns, moves the match to
DESTROYED and clears the owner reference; in FINISHED and in DESTROYED it
throws and leaves the state and the owner reference as they were. -/
theorem owner_leave_teardown (id : String) (owner : Player) (g : Game Board Snap PubSnap)
    (hreach : Reachable bc id owner g) (hset : g.owner ≠ none) :
    (g.getState ≠ .FINISHED ∧ g.getState ≠ .DESTROYED →
      (g.leave bc g.owner).1 = .returned ∧
      (g.leave bc g.owner).2.getState = .DESTROYED ∧
      (g.leave bc g.owner).2.owner = none) ∧
    (g.getState = .FINISHED ∨ g.getState = .DESTROYED →
      (∃ e, (g.leave bc g.owner).1 = .threw e) ∧
      (g.leave bc g.owner).2.getState = g.getState ∧
      (g.leave bc g.owner).2.owner = g.owner) := by
  have hinv := reachable_inv bc id owner g hreach
  refine ⟨fun hactive => ?_, fun hterm => ?_⟩
  · have hown : g.owner = some owner := by
      rcases hinv.ownerOrNull with h | h
      · exact h
      · exact absurd h hset
    obtain ⟨s, hs⟩ := leave_owner_of_active bc owner g hinv hactive
    rw [hown, hs]
    exact ⟨rfl, rfl, rfl⟩
  · rw [leave_owner_of_terminal bc g hterm]
    exact ⟨⟨_, rfl⟩, rfl, rfl⟩

/-- The amended owner teardown on the finished match, whose owner reference is
set. -/
theorem owner_leave_teardown_witness :
    (finished.getState ≠ .FINISHED ∧ finished.getState ≠ .DESTROYED →
      (finished.leave fleet finished.owner).1 = .returned ∧
      (finished.leave fleet finished.owner).2.getState = .DESTROYED ∧
      (finished.leave fleet finished.owner).2.owner = none) ∧
    (finished.getState = .FINISHED ∨ finished.getState = .DESTROYED →
      (∃ e, (finished.leave fleet finished.owner).1 = .threw e) ∧
      (finished.leave fleet finished.owner).2.getState = finished.getState ∧
      (finished.leave fleet finished.owner).2.owner = finished.owner) :=
  owner_leave_teardown fleet "game1" alice finished finished_reachable (by decide)

end Terminal

/-! ## The dispatch, case by case -/

section Transitions

variable {Board Position Snap PubSnap : Type}
variable (bc : BoardContract Board Position Snap PubSnap)

/-- A trigger the state's table does not define is rejected. -/
theorem fire_undefined (m : Machine Board) (c : Call Position)
    (hnone : transitions bc m.state c = none) :
    m.fire bc c = (.threw .illegalTransition, m) := by
  unfold Machine.fire
  rw [hnone]

/-- The dispatch either throws and leaves the machine as it was, or returns
and makes one of the transitions of `Step`. -/
theorem fire_cases (m : Machine Board) (c : Call Position) :
    (∃ e, m.fire bc c = (.threw e, m)) ∨
    (∃ m', m.fire bc c = (.returned, m') ∧ Step bc m c m') := by
  cases hs : m.state with
  | FINISHED => exact Or.inl ⟨_, fire_terminal bc m c (Or.inl hs)⟩
  | DESTROYED => exact Or.inl ⟨_, fire_terminal bc m c (Or.inr hs)⟩
  | IDLE =>
    cases c with
    | initialize_ p =>
      refine Or.inr ⟨_, ?_, Step.created m p hs⟩
      unfold Machine.fire
      rw [hs]
      rfl
    | join p => exact Or.inl ⟨_, fire_undefined bc m _ (by rw [hs]; rfl)⟩
    | leave p => exact Or.inl ⟨_, fire_undefined bc m _ (by rw [hs]; rfl)⟩
    | start => exact Or.inl ⟨_, fire_undefined bc m _ (by rw [hs]; rfl)⟩
    | makeShot p pos => exact Or.inl ⟨_, fire_undefined bc m _ (by rw [hs]; rfl)⟩
    | destroy => exact Or.inl ⟨_, fire_undefined bc m _ (by rw [hs]; rfl)⟩
  | AWAITING_PLAYER =>
    cases c with
    | initialize_ p => exact Or.inl ⟨_, fire_undefined bc m _ (by rw [hs]; rfl)⟩
    | start => exact Or.inl ⟨_, fire_undefined bc m _ (by rw [hs]; rfl)⟩
    | makeShot p pos => exact Or.inl ⟨_, fire_undefined bc m _ (by rw [hs]; rfl)⟩
    | join p =>
      refine Or.inr ⟨_, ?_, Step.joined m p hs⟩
      unfold Machine.fire
      rw [hs]
      rfl
    | leave p =>
      refine Or.inr ⟨_, ?_, Step.abandoned m p (Or.inl hs)⟩
      unfold Machine.fire
      rw [hs]
      rfl
    | destroy =>
      refine Or.inr ⟨_, ?_, Step.destroyed m (Or.inl hs)⟩
      unfold Machine.fire
      rw [hs]
      rfl
  | AWAITING_START =>
    cases c with
    | initialize_ p => exact Or.inl ⟨_, fire_undefined bc m _ (by rw [hs]; rfl)⟩
    | join p => exact Or.inl ⟨_, fire_undefined bc m _ (by rw [hs]; rfl)⟩
    | makeShot p pos => exact Or.inl ⟨_, fire_undefined bc m _ (by rw [hs]; rfl)⟩
    | start =>
      refine Or.inr ⟨_, ?_, Step.started m hs⟩
      unfold Machine.fire
      rw [hs]
      rfl
    | destroy =>
      refine Or.inr ⟨_, ?_, Step.destroyed m (Or.inr (Or.inl hs))⟩
      unfold Machine.fire
      rw [hs]
      rfl
    | leave p =>
      by_cases hpA : p = m.playerA
      · refine Or.inr ⟨_, ?_, Step.leftA m p hs hpA⟩
        unfold Machine.fire
        rw [hs]
        simp only [transitions, transitionTo, if_pos hpA, Except.map]
      · by_cases hpB : p = m.playerB
        · refine Or.inr ⟨_, ?_, Step.leftB m p hs hpA hpB⟩
          unfold Machine.fire
          rw [hs]
          simp only [transitions, transitionTo, if_neg hpA, if_pos hpB, Except.map]
        · refine Or.inl ?_
          unfold Machine.fire
          rw [hs]
          cases p with
          | none => exact ⟨.typeError, by simp [transitions, transitionTo, hpA, hpB, Except.map]⟩
          | some x =>
            exact ⟨.notInGame, by simp [transitions, transitionTo, hpA, hpB, Except.map]⟩
  | PLAYER_TURN =>
    cases c with
    | initialize_ p => exact Or.inl ⟨_, fire_undefined bc m _ (by rw [hs]; rfl)⟩
    | join p => exact Or.inl ⟨_, fire_undefined bc m _ (by rw [hs]; rfl)⟩
    | start => exact Or.inl ⟨_, fire_undefined bc m _ (by rw [hs]; rfl)⟩
    | leave p =>
      refine Or.inr ⟨_, ?_, Step.abandoned m p (Or.inr hs)⟩
      unfold Machine.fire
      rw [hs]
      rfl
    | destroy =>
      refine Or.inr ⟨_, ?_, Step.destroyed m (Or.inr (Or.inr hs))⟩
      unfold Machine.fire
      rw [hs]
      rfl
    | makeShot p pos =>
      by_cases hturn : p = m.current
      · cases hb : mapGet m.boards m.waiting with
        | none => exact Or.inl ⟨_, fire_makeShot_no_board bc m p pos hs hturn.symm hb⟩
        | some board =>
          by_cases hd : bc.isAllShipsDestroyed (bc.processShoot board pos).1 = true
          · exact Or.inr ⟨_, fire_makeShot_finish bc m p pos board hs hturn.symm hb hd,
              Step.shotFinish m p pos board hs hturn.symm hb hd⟩
          · have hd' : bc.isAllShipsDestroyed (bc.processShoot board pos).1 = false := by
              simpa using hd
            by_cases hr : (bc.processShoot board pos).2 = .MISS
            · exact Or.inr ⟨_, fire_makeShot_miss bc m p pos board hs hturn.symm hb hd' hr,
                Step.shotMiss m p pos board hs hturn.symm hb hd' hr⟩
            · exact Or.inr ⟨_, fire_makeShot_hit bc m p pos board hs hturn.symm hb hd' hr,
                Step.shotHit m p pos board hs hturn.symm hb hd' hr⟩
      · exact Or.inl ⟨_, fire_makeShot_other bc m p pos hs hturn⟩

/-- The snapshot is computed without error on every match whose roles are both
`null` or start with a player object, and whose map holds no board under
`null`. -/
theorem getGameState_ok (g : Game Board Snap PubSnap) (hroles : RolesOK g.machine)
    (hnull : mapGet g.machine.boards none = none) :
    ∃ s, g.getGameState bc = .ok s := by
  rcases hroles with ⟨-, hw⟩ | ⟨p, q, hp, -, -, -⟩
  · obtain ⟨s, hs, -, -⟩ := getGameState_of_not_finished bc g (by
      rw [hw, hnull]
      rfl)
    exact ⟨s, hs⟩
  · obtain ⟨s, hs, -, -⟩ := getGameState_of_current bc g p hp
    exact ⟨s, hs⟩

/-- On a match that meets the invariant, a trigger the dispatch accepts
returns: the machine it leaves meets the invariant as well, so the snapshot
for the notification is computed without error. -/
theorem send_of_fire_returned_inv (owner : Player) (g : Game Board Snap PubSnap)
    (c : Call Position) (m : Machine Board)
    (hf : g.machine.fire bc c = (.returned, m)) (hm : MachineInv owner m) :
    ∃ s, g.send bc c = (.returned, { g with machine := m, updates := g.updates ++ [s] }) := by
  obtain ⟨s, hs⟩ := getGameState_ok bc ({ g with machine := m }) hm.roles hm.noNullBoard
  exact ⟨s, send_of_fire_returned bc g c m s hf hs⟩

/-- Entering DESTROYED keeps the machine invariant. -/
theorem destroyed_inv (owner : Player) (m : Machine Board) (hm : MachineInv owner m) :
    MachineInv owner { m with state := .DESTROYED } :=
  ⟨by simp, hm.ownerIsA, hm.noNullBoard, hm.roles, by simp, by simp, by simp⟩

/-- A `leave` by anyone but the owner, on a match that meets the invariant and
is in AWAITING_PLAYER or PLAYER_TURN: the machine enters DESTROYED, one
notification is emitted and the owner reference is cleared. -/
theorem leave_other_of_open (owner : Player) (g : Game Board Snap PubSnap)
    (hinv : GameInv owner g) (X : PlayerRef) (hX : X ≠ g.owner)
    (hstate : g.machine.state = .AWAITING_PLAYER ∨ g.machine.state = .PLAYER_TURN) :
    ∃ s, g.leave bc X =
      (.returned, { g with machine := { g.machine with state := .DESTROYED },
                           updates := g.updates ++ [s], owner := none }) := by
  have hf : g.machine.fire bc (.leave X : Call Position) =
      (.returned, { g.machine with state := .DESTROYED }) := by
    unfold Machine.fire
    rcases hstate with h | h <;> rw [h] <;> rfl
  obtain ⟨s, hs⟩ := send_of_fire_returned_inv bc owner g _ _ hf
    (destroyed_inv owner g.machine hinv.machine)
  refine ⟨s, ?_⟩
  unfold Game.leave
  rw [if_neg hX, hs]
  rfl

/-- A `leave` by anyone but the owner on a match in FINISHED or DESTROYED is
rejected and leaves the match as it was. -/
theorem leave_other_of_terminal (g : Game Board Snap PubSnap) (X : PlayerRef)
    (hX : X ≠ g.owner)
    (hterm : g.machine.state = .FINISHED ∨ g.machine.state = .DESTROYED) :
    g.leave bc X = (.threw .illegalTransition, g) := by
  unfold Game.leave
  rw [if_neg hX, send_terminal bc g _ hterm]

end Transitions

/-! ## Leaving and joining -/

section LeaveJoin

variable {Board Position Snap PubSnap : Type}
variable (bc : BoardContract Board Position Snap PubSnap)

/-- C11, as stated, fails on the started match: bob is not the owner, the
state is PLAYER_TURN, and `leave(bob)` returns, moves the match to DESTROYED
and clears the owner reference. -/
theorem non_owner_leave_in_player_turn :
    some bob ≠ started.owner ∧ started.getState = .PLAYER_TURN ∧
    (started.leave fleet (some bob)).1 = .returned ∧
    (started.leave fleet (some bob)).2.getState = .DESTROYED ∧
    (started.leave fleet (some bob)).2.owner = none ∧
    started.owner = some alice := by
  refine ⟨by decide, by decide, by decide, by decide, by decide, by decide⟩

/-- C11, amended: a `leave` by a player other than the owner. On every match a
caller can hold and every `X` that is not the owner reference, `leave(X)`
returns only in AWAITING_PLAYER, AWAITING_START or PLAYER_TURN; in
AWAITING_PLAYER and in PLAYER_TURN it always returns, moves the match to
DESTROYED and clears the owner reference; in FINISHED and in DESTROYED it
throws and leaves the state and the owner reference unchanged. -/
theorem non_owner_leave (id : String) (owner : Player) (g : Game Board Snap PubSnap)
    (hreach : Reachable bc id owner g) (X : PlayerRef) (hX : X ≠ g.owner) :
    ((g.leave bc X).1 = .returned →
      g.getState = .AWAITING_PLAYER ∨ g.getState = .AWAITING_START ∨
        g.getState = .PLAYER_TURN) ∧
    (g.getState = .AWAITING_PLAYER ∨ g.getState = .PLAYER_TURN →
      (g.leave bc X).1 = .returned ∧
      (g.leave bc X).2.getState = .DESTROYED ∧
      (g.leave bc X).2.owner = none) ∧
    (g.getState = .FINISHED ∨ g.getState = .DESTROYED →
      (∃ e, (g.leave bc X).1 = .threw e) ∧
      (g.leave bc X).2.getState = g.getState ∧
      (g.leave bc X).2.owner = g.owner) := by
  have hinv := reachable_inv bc id owner g hreach
  refine ⟨fun hret => ?_, fun hopen => ?_, fun hterm => ?_⟩
  · unfold Game.getState
    cases hs : g.machine.state with
    | IDLE => exact absurd hs hinv.machine.notIdle
    | AWAITING_PLAYER => exact Or.inl rfl
    | AWAITING_START => exact Or.inr (Or.inl rfl)
    | PLAYER_TURN => exact Or.inr (Or.inr rfl)
    | FINISHED =>
      rw [leave_other_of_terminal bc g X hX (Or.inl hs)] at hret
      cases hret
    | DESTROYED =>
      rw [leave_other_of_terminal bc g X hX (Or.inr hs)] at hret
      cases hret
  · obtain ⟨s, hs⟩ := leave_other_of_open bc owner g hinv X hX hopen
    rw [hs]
    exact ⟨rfl, rfl, rfl⟩
  · rw [leave_other_of_terminal bc g X hX hterm]
    exact ⟨⟨_, rfl⟩, rfl, rfl⟩

/-- The amended claim on the match alice created: bob, who never joined,
leaves, and the match is destroyed. -/
theorem non_owner_leave_witness :
    ((created.leave fleet (some bob)).1 = .returned →
      created.getState = .AWAITING_PLAYER ∨ created.getState = .AWAITING_START ∨
        created.getState = .PLAYER_TURN) ∧
    (created.getState = .AWAITING_PLAYER ∨ created.getState = .PLAYER_TURN →
      (created.leave fleet (some bob)).1 = .returned ∧
      (created.leave fleet (some bob)).2.getState = .DESTROYED ∧
      (created.leave fleet (some bob)).2.owner = none) ∧
    (created.getState = .FINISHED ∨ created.getState = .DESTROYED →
      (∃ e, (created.leave fleet (some bob)).1 = .threw e) ∧
      (created.leave fleet (some bob)).2.getState = created.getState ∧
      (created.leave fleet (some bob)).2.owner = created.owner) :=
  non_owner_leave fleet "game1" alice created created_reachable (some bob) (by decide)

/-- The machine a `leave` leaves behind is the one the forwarded trigger
leaves: clearing `_owner` does not touch it. -/
theorem leave_machine (g : Game Board Snap PubSnap) (player : PlayerRef) :
    (g.leave bc player).2.machine =
      (g.machine.fire bc (if player = g.owner then (.destroy : Call Position)
        else .leave player)).2 := by
  unfold Game.leave
  by_cases hp : player = g.owner
  · rw [if_pos hp, if_pos hp, ← send_machine]
    rcases g.send bc (.destroy : Call Position) with ⟨r, g'⟩
    cases r <;> rfl
  · rw [if_neg hp, if_neg hp, ← send_machine]
    rcases g.send bc (.leave player : Call Position) with ⟨r, g'⟩
    cases r with
    | threw e => rfl
    | returned =>
      simp only
      split <;> rfl

/-- The machine a facade call leaves behind: the machine as it was when
nothing is forwarded, the machine the dispatch leaves otherwise. -/
theorem call_machine (g : Game Board Snap PubSnap) (c : FacadeCall Position) :
    (g.call bc c).2.machine =
      match g.forwarded c with
      | none => g.machine
      | some t => (g.machine.fire bc t).2 := by
  cases c with
  | initialize_ => exact send_machine bc g _
  | start => exact send_machine bc g _
  | destroy => exact send_machine bc g _
  | makeShot player target => exact send_machine bc g _
  | join player =>
    show (g.join bc player).2.machine = _
    by_cases hp : player = g.machine.playerA ∨ player = g.machine.playerB
    · simp only [Game.join, Game.forwarded, if_pos hp]
    · simp only [Game.join, Game.forwarded, if_neg hp]
      exact send_machine bc g _
  | leave player =>
    show (g.leave bc player).2.machine = _
    rw [leave_machine]
    by_cases hp : player = g.owner
    · simp only [Game.forwarded, if_pos hp]
    · simp only [Game.forwarded, if_neg hp]

/-- C14: join deduplication. In every state, terminal states included, `join(X)`
for an `X` that is the current `playerA` or `playerB` returns without error
and leaves the whole match (state, `playerA`, `playerB`, `current`,
`waiting`, board map) as it was; for any other `X` the call is the machine's
`join` trigger, and it is rejected, the match unchanged, unless the state is
AWAITING_PLAYER. -/
theorem join_deduplicates (g : Game Board Snap PubSnap) (X : PlayerRef) :
    (X = g.machine.playerA ∨ X = g.machine.playerB → g.join bc X = (.returned, g)) ∧
    (¬ (X = g.machine.playerA ∨ X = g.machine.playerB) →
      g.join bc X = g.send bc (.join X) ∧
      (g.getState ≠ .AWAITING_PLAYER → g.join bc X = (.threw .illegalTransition, g))) := by
  refine ⟨fun h => ?_, fun h => ⟨?_, fun hs => ?_⟩⟩
  · unfold Game.join
    rw [if_pos h]
  · unfold Game.join
    rw [if_neg h]
  · unfold Game.join
    rw [if_neg h]
    refine send_of_fire_threw bc g _ _ (fire_undefined bc g.machine _ ?_)
    unfold Game.getState at hs
    cases hst : g.machine.state <;> first | exact absurd hst hs | rfl

/-- Join deduplication on the finished match: bob, who is `playerB`, joins
again and nothing changes; carol is rejected. -/
theorem join_deduplicates_witness :
    finished.join fleet (some bob) = (.returned, finished) ∧
    finished.join fleet (some carol) = (.threw .illegalTransition, finished) :=
  ⟨(join_deduplicates fleet finished (some bob)).1 (by decide),
   ((join_deduplicates fleet finished (some carol)).2 (by decide)).2 (by decide)⟩

/-- C15: start. On every match a caller can hold, `start()` returns if and only
if the state is AWAITING_START; when it returns the state is PLAYER_TURN,
`current` is `playerA`, the owner, `waiting` is `playerB`, and `playerA`,
`playerB` and the board map are unchanged; when it throws the whole match is
as it was. -/
theorem start_iff_awaiting_start (id : String) (owner : Player) (g : Game Board Snap PubSnap)
    (hreach : Reachable bc id owner g) :
    ((g.start bc).1 = .returned ↔ g.getState = .AWAITING_START) ∧
    (g.getState = .AWAITING_START →
      (g.start bc).2.getState = .PLAYER_TURN ∧
      (g.start bc).2.getCurrentPlayer = g.machine.playerA ∧
      g.machine.playerA = some owner ∧
      (g.start bc).2.getWaitingPlayer = g.machine.playerB ∧
      (g.start bc).2.machine.playerA = g.machine.playerA ∧
      (g.start bc).2.machine.playerB = g.machine.playerB ∧
      (g.start bc).2.machine.boards = g.machine.boards) ∧
    (g.getState ≠ .AWAITING_START → g.start bc = (.threw .illegalTransition, g)) := by
  have hinv := reachable_inv bc id owner g hreach
  have hfail : g.getState ≠ .AWAITING_START → g.start bc = (.threw .illegalTransition, g) := by
    intro hs
    unfold Game.start
    refine send_of_fire_threw bc g _ _ (fire_undefined bc g.machine _ ?_)
    unfold Game.getState at hs
    cases hst : g.machine.state <;> first | exact absurd hst hs | rfl
  have hok : g.getState = .AWAITING_START →
      ∃ s, g.start bc = (.returned,
        { g with machine := { g.machine with current := g.machine.playerA,
                                             waiting := g.machine.playerB,
                                             state := .PLAYER_TURN },
                 updates := g.updates ++ [s] }) := by
    intro hs
    unfold Game.getState at hs
    have hf : g.machine.fire bc (.start : Call Position) =
        (.returned, { g.machine with current := g.machine.playerA,
                                     waiting := g.machine.playerB,
                                     state := .PLAYER_TURN }) := by
      unfold Machine.fire
      rw [hs]
      rfl
    have hm := fire_preserves bc owner g.machine (.start : Call Position) hinv.machine
      (fun p h => by cases h) (fun p h => by cases h)
    rw [hf] at hm
    exact send_of_fire_returned_inv bc owner g _ _ hf hm
  refine ⟨⟨fun hret => ?_, fun hs => ?_⟩, fun hs => ?_, hfail⟩
  · by_contra hne
    rw [hfail hne] at hret
    cases hret
  · obtain ⟨s, h⟩ := hok hs
    rw [h]
  · obtain ⟨s, h⟩ := hok hs
    rw [h]
    exact ⟨rfl, rfl, hinv.machine.ownerIsA, rfl, rfl, rfl, rfl⟩

/-- The start law on the match bob has joined: `start()` returns and alice,
the owner, is the current player. -/
theorem start_iff_awaiting_start_witness :
    ((joined.start fleet).1 = .returned ↔ joined.getState = .AWAITING_START) ∧
    (joined.getState = .AWAITING_START →
      (joined.start fleet).2.getState = .PLAYER_TURN ∧
      (joined.start fleet).2.getCurrentPlayer = joined.machine.playerA ∧
      joined.machine.playerA = some alice ∧
      (joined.start fleet).2.getWaitingPlayer = joined.machine.playerB ∧
      (joined.start fleet).2.machine.playerA = joined.machine.playerA ∧
      (joined.start fleet).2.machine.playerB = joined.machine.playerB ∧
      (joined.start fleet).2.machine.boards = joined.machine.boards) ∧
    (joined.getState ≠ .AWAITING_START →
      joined.start fleet = (.threw .illegalTransition, joined)) :=
  start_iff_awaiting_start fleet "game1" alice joined joined_reachable

/-- C16: unknown participant. On every match a caller can hold that is in state
AWAITING_START, and every `X` other than the owner reference, `leave(X)`
throws if and only if `X` is neither `playerA` nor `playerB`; when it throws,
the whole match (state, `playerA`, `playerB`, boards, owner reference) is as
it was; when it returns, the state is AWAITING_PLAYER, the slot that held `X`
is `null`, the other slot, the boards and the owner reference are
unchanged. -/
theorem leave_awaiting_start (id : String) (owner : Player) (g : Game Board Snap PubSnap)
    (hreach : Reachable bc id owner g) (X : PlayerRef)
    (hstate : g.getState = .AWAITING_START) (hX : X ≠ g.owner) :
    ((∃ e, (g.leave bc X).1 = .threw e) ↔
      (X ≠ g.machine.playerA ∧ X ≠ g.machine.playerB)) ∧
    (X ≠ g.machine.playerA ∧ X ≠ g.machine.playerB → (g.leave bc X).2 = g) ∧
    (X = g.machine.playerA ∨ X = g.machine.playerB →
      (g.leave bc X).1 = .returned ∧
      (g.leave bc X).2.getState = .AWAITING_PLAYER ∧
      (X = g.machine.playerA →
        (g.leave bc X).2.machine.playerA = none ∧
        (g.leave bc X).2.machine.playerB = g.machine.playerB) ∧
      (X = g.machine.playerB →
        (g.leave bc X).2.machine.playerB = none ∧
        (g.leave bc X).2.machine.playerA = g.machine.playerA) ∧
      (g.leave bc X).2.machine.boards = g.machine.boards ∧
      (g.leave bc X).2.owner = g.owner) := by
  have hinv := reachable_inv bc id owner g hreach
  unfold Game.getState at hstate
  have hown : g.owner = some owner := hinv.ownerKept (by rw [hstate]; decide)
  have hXA : X ≠ g.machine.playerA := by
    rw [hinv.machine.ownerIsA, ← hown]
    exact hX
  have hfailcase : X ≠ g.machine.playerB → ∃ e, g.leave bc X = (.threw e, g) := by
    intro hXB
    rcases fire_cases bc g.machine (.leave X : Call Position) with ⟨e, hf⟩ | ⟨m', -, hstep⟩
    · refine ⟨e, ?_⟩
      unfold Game.leave
      rw [if_neg hX, send_of_fire_threw bc g _ e hf]
    · cases hstep with
      | abandoned _ hs =>
        rcases hs with h | h <;> rw [hstate] at h <;> cases h
      | leftA _ _ hp => exact absurd hp hXA
      | leftB _ _ _ hp => exact absurd hp hXB
  have hokcase : X = g.machine.playerB →
      ∃ s, g.leave bc X = (.returned,
        { g with machine := { g.machine with playerB := none, state := .AWAITING_PLAYER },
                 updates := g.updates ++ [s] }) := by
    intro hXB
    have hf : g.machine.fire bc (.leave X : Call Position) =
        (.returned, { g.machine with playerB := none, state := .AWAITING_PLAYER }) := by
      unfold Machine.fire
      rw [hstate]
      simp only [transitions, transitionTo, if_neg hXA, if_pos hXB, Except.map]
    have hm := fire_preserves bc owner g.machine (.leave X : Call Position) hinv.machine
      (fun p h => by cases h) (fun p h _ => by
        cases h
        rw [← hown]
        exact hX)
    rw [hf] at hm
    obtain ⟨s, hs⟩ := send_of_fire_returned_inv bc owner g _ _ hf hm
    refine ⟨s, ?_⟩
    unfold Game.leave
    rw [if_neg hX, hs]
    simp [Game.getState]
  refine ⟨⟨fun hthrew => ⟨hXA, fun hXB => ?_⟩, fun hneither => ?_⟩, fun hneither => ?_,
    fun hslot => ?_⟩
  · obtain ⟨e, he⟩ := hthrew
    obtain ⟨s, hs⟩ := hokcase hXB
    rw [hs] at he
    cases he
  · obtain ⟨e, he⟩ := hfailcase hneither.2
    exact ⟨e, by rw [he]⟩
  · obtain ⟨e, he⟩ := hfailcase hneither.2
    rw [he]
  · have hXB : X = g.machine.playerB := by
      rcases hslot with h | h
      · exact absurd h hXA
      · exact h
    obtain ⟨s, hs⟩ := hokcase hXB
    rw [hs]
    exact ⟨rfl, rfl, fun h => absurd h hXA, fun _ => ⟨rfl, rfl⟩, rfl, rfl⟩

/-- The unknown-participant law on the match bob has joined: bob leaves and his
slot is cleared. -/
theorem leave_awaiting_start_witness :
    ((∃ e, (joined.leave fleet (some bob)).1 = .threw e) ↔
      (some bob ≠ joined.machine.playerA ∧ some bob ≠ joined.machine.playerB)) ∧
    (some bob ≠ joined.machine.playerA ∧ some bob ≠ joined.machine.playerB →
      (joined.leave fleet (some bob)).2 = joined) ∧
    (some bob = joined.machine.playerA ∨ some bob = joined.machine.playerB →
      (joined.leave fleet (some bob)).1 = .returned ∧
      (joined.leave fleet (some bob)).2.getState = .AWAITING_PLAYER ∧
      (some bob = joined.machine.playerA →
        (joined.leave fleet (some bob)).2.machine.playerA = none ∧
        (joined.leave fleet (some bob)).2.machine.playerB = joined.machine.playerB) ∧
      (some bob = joined.machine.playerB →
        (joined.leave fleet (some bob)).2.machine.playerB = none ∧
        (joined.leave fleet (some bob)).2.machine.playerA = joined.machine.playerA) ∧
      (joined.leave fleet (some bob)).2.machine.boards = joined.machine.boards ∧
      (joined.leave fleet (some bob)).2.owner = joined.owner) :=
  leave_awaiting_start fleet "game1" alice joined joined_reachable (some bob)
    (by decide) (by decide)

end LeaveJoin

/-! ## The state is never IDLE again -/

section NeverIdle

variable {Board Position Snap PubSnap : Type}
variable (bc : BoardContract Board Position Snap PubSnap)

/-- No transition enters IDLE. -/
theorem step_not_idle (m m' : Machine Board) (c : Call Position) (hstep : Step bc m c m') :
    m'.state ≠ .IDLE := by
  cases hstep <;> simp

/-- The dispatch leaves a machine that is not in IDLE out of IDLE. -/
theorem fire_not_idle (m : Machine Board) (c : Call Position) (hm : m.state ≠ .IDLE) :
    (m.fire bc c).2.state ≠ .IDLE := by
  rcases fire_cases bc m c with ⟨e, hf⟩ | ⟨m', hf, hstep⟩
  · rw [hf]
    exact hm
  · rw [hf]
    exact step_not_idle bc m m' c hstep

/-- A facade call leaves a match that is not in IDLE out of IDLE. -/
theorem call_not_idle (g : Game Board Snap PubSnap) (c : FacadeCall Position)
    (hg : g.machine.state ≠ .IDLE) : (g.call bc c).2.machine.state ≠ .IDLE := by
  rw [call_machine]
  cases g.forwarded c with
  | none => exact hg
  | some t => exact fire_not_idle bc g.machine t hg

/-- C20: never idle. On the match the constructor returns, for any owner
argument, and after every finite sequence of facade calls on it, the state is
not IDLE; so the facade's `initialize()` throws there and leaves the whole
match (state, `playerA`, `playerB`, `current`, `waiting`, boards, owner
reference) as it was. -/
theorem never_idle (id : String) (owner : PlayerRef) (g : Game Board Snap PubSnap)
    (hdriven : Driven bc (Game.constructor bc id owner) g) :
    g.getState ≠ .IDLE ∧ g.initialize_ bc = (.threw .illegalTransition, g) := by
  have hne : g.machine.state ≠ .IDLE := by
    induction hdriven with
    | start => simp [Game.constructor, Machine.fire, createGame, transitions, transitionTo,
        Except.map]
    | call g c _ ih => exact call_not_idle bc g c ih
  refine ⟨hne, ?_⟩
  unfold Game.initialize_
  exact send_of_fire_threw bc g _ _ (fire_initialize_not_idle bc g.machine g.owner hne)

/-- Never idle, on the started match. -/
theorem never_idle_witness :
    started.getState ≠ .IDLE ∧
    started.initialize_ fleet = (.threw .illegalTransition, started) :=
  never_idle fleet "game1" (some alice) started
    (Driven.call joined .start (Driven.call created (.join (some bob)) Driven.start))

end NeverIdle

/-! ## More on the map and on what the facade forwards -/

section MapLemmas

variable {Board Position Snap PubSnap : Type}
variable (bc : BoardContract Board Position Snap PubSnap)

/-- A key that has a value is one of the keys of the map. -/
theorem mem_keys_of_mapGet {V : Type} (m : List (PlayerRef × V)) (k : PlayerRef) (v : V)
    (h : mapGet m k = some v) : k ∈ m.map Prod.fst := by
  induction m with
  | nil => simp [mapGet] at h
  | cons hd tl ih =>
    obtain ⟨k0, v0⟩ := hd
    by_cases hk : k0 = k
    · simp [hk]
    · simp only [mapGet, if_neg hk] at h
      simp [ih h]

/-- Setting a key the map holds keeps the keys. -/
theorem keys_mapSet_of_mem {V : Type} (m : List (PlayerRef × V)) (k : PlayerRef) (v : V)
    (h : k ∈ m.map Prod.fst) : (mapSet m k v).map Prod.fst = m.map Prod.fst := by
  induction m with
  | nil => simp at h
  | cons hd tl ih =>
    obtain ⟨k0, v0⟩ := hd
    by_cases hk : k0 = k
    · simp [mapSet, hk]
    · have hk' : ¬ k = k0 := fun e => hk e.symm
      have htl : k ∈ tl.map Prod.fst := by
        simpa [hk'] using h
      simp [mapSet, hk, ih htl]

/-- Setting a key the map does not hold appends it to the keys. -/
theorem keys_mapSet_of_not_mem {V : Type} (m : List (PlayerRef × V)) (k : PlayerRef) (v : V)
    (h : k ∉ m.map Prod.fst) : (mapSet m k v).map Prod.fst = m.map Prod.fst ++ [k] := by
  induction m with
  | nil => simp [mapSet]
  | cons hd tl ih =>
    obtain ⟨k0, v0⟩ := hd
    have hk : ¬ k0 = k := by
      intro e
      apply h
      simp [e]
    have htl : k ∉ tl.map Prod.fst := by
      intro hmem
      apply h
      simp only [List.map_cons, List.mem_cons]
      exact Or.inr hmem
    simp [mapSet, hk, ih htl]

/-- What a lookup finds after a `set`: the value set, or what it found
before. -/
theorem mapGet_mapSet_cases {V : Type} (m : List (PlayerRef × V)) (k k' : PlayerRef)
    (v b : V) (h : mapGet (mapSet m k v) k' = some b) :
    (k' = k ∧ b = v) ∨ (k' ≠ k ∧ mapGet m k' = some b) := by
  by_cases hk : k' = k
  · subst hk
    rw [mapGet_mapSet_self] at h
    exact Or.inl ⟨rfl, (Option.some.inj h).symm⟩
  · rw [mapGet_mapSet_of_ne _ _ _ _ hk] at h
    exact Or.inr ⟨hk, h⟩

/-- The machine's `makeShot` is forwarded by the facade's `makeShot` only. -/
theorem forwarded_makeShot (g : Game Board Snap PubSnap) (c : FacadeCall Position)
    (p : PlayerRef) (pos : Position) (h : g.forwarded c = some (.makeShot p pos)) :
    c = .makeShot p pos := by
  cases c with
  | initialize_ => simp [Game.forwarded] at h
  | start => simp [Game.forwarded] at h
  | destroy => simp [Game.forwarded] at h
  | makeShot player target =>
    simp only [Game.forwarded, Option.some.injEq, Call.makeShot.injEq] at h
    rw [h.1, h.2]
  | join player =>
    simp only [Game.forwarded] at h
    split at h <;> simp at h
  | leave player =>
    simp only [Game.forwarded] at h
    split at h <;> simp at h

/-- The machine's `join` is forwarded by the facade's `join` only, for a player
that is in neither slot. -/
theorem forwarded_join (g : Game Board Snap PubSnap) (c : FacadeCall Position)
    (p : PlayerRef) (h : g.forwarded c = some (.join p)) :
    c = .join p ∧ p ≠ g.machine.playerA ∧ p ≠ g.machine.playerB := by
  cases c with
  | initialize_ => simp [Game.forwarded] at h
  | start => simp [Game.forwarded] at h
  | destroy => simp [Game.forwarded] at h
  | makeShot player target => simp [Game.forwarded] at h
  | join player =>
    simp only [Game.forwarded] at h
    split at h
    · simp at h
    · rename_i hnot
      simp only [Option.some.injEq, Call.join.injEq] at h
      subst h
      exact ⟨rfl, fun e => hnot (Or.inl e), fun e => hnot (Or.inr e)⟩
  | leave player =>
    simp only [Game.forwarded] at h
    split at h <;> simp at h

/-- The machine's `leave` is forwarded by the facade's `leave` only, for a
player other than the owner reference. -/
theorem forwarded_leave (g : Game Board Snap PubSnap) (c : FacadeCall Position)
    (p : PlayerRef) (h : g.forwarded c = some (.leave p)) :
    c = .leave p ∧ p ≠ g.owner := by
  cases c with
  | initialize_ => simp [Game.forwarded] at h
  | start => simp [Game.forwarded] at h
  | destroy => simp [Game.forwarded] at h
  | makeShot player target => simp [Game.forwarded] at h
  | join player =>
    simp only [Game.forwarded] at h
    split at h <;> simp at h
  | leave player =>
    simp only [Game.forwarded] at h
    split at h
    · simp at h
    · rename_i hnot
      simp only [Option.some.injEq, Call.leave.injEq] at h
      subst h
      exact ⟨rfl, hnot⟩

end MapLemmas

/-! ## The owner reference and the snapshot -/

section Snapshot

variable {Board Position Snap PubSnap : Type}
variable (bc : BoardContract Board Position Snap PubSnap)

/-- The half of the owner-presence law that holds: on a match a caller can
hold, built for an owner whose `getInfo()` is not `null`, `getOwnerInfo()` is
`null` only in DESTROYED. -/
theorem owner_info_null_only_destroyed (id : String) (owner : Player)
    (g : Game Board Snap PubSnap) (hreach : Reachable bc id owner g)
    (hinfo : owner.info ≠ none) (hnull : g.getOwnerInfo = none) :
    g.getState = .DESTROYED := by
  by_contra hne
  have hown := (reachable_inv bc id owner g hreach).ownerKept hne
  unfold Game.getOwnerInfo at hnull
  rw [hown] at hnull
  exact hinfo hnull

/-- C17: owner presence, on the match alice created and then destroyed with
`destroy()`. Alice's `getInfo()` is not `null`, `destroy()` returns, the state
is DESTROYED, and `getOwnerInfo()` still returns alice's info: `destroy()`
does not clear the owner reference, which `leave` clears whenever it leaves
the match DESTROYED. -/
theorem owner_info_after_destroy :
    alice.info ≠ none ∧ (created.destroy fleet).1 = .returned ∧
    destroyed.getState = .DESTROYED ∧ destroyed.getOwnerInfo = some "alice" ∧
    destroyed.getOwnerInfo ≠ none := by
  refine ⟨by decide, by decide, by decide, by decide, by decide⟩

/-- The snapshot depends on the match only through its id, its state, the two
roles, the current player's board, and the public view and the finished flag
of the waiting player's board. -/
theorem getGameState_congr (g1 g2 : Game Board Snap PubSnap)
    (hid : g2.id = g1.id) (hstate : g2.machine.state = g1.machine.state)
    (hcur : g2.machine.current = g1.machine.current)
    (hwait : g2.machine.waiting = g1.machine.waiting)
    (hown : mapGet g2.machine.boards g1.machine.current =
      mapGet g1.machine.boards g1.machine.current)
    (hpub : (mapGet g2.machine.boards g1.machine.waiting).map bc.getPublicSnapshoot =
      (mapGet g1.machine.boards g1.machine.waiting).map bc.getPublicSnapshoot)
    (hdone : (mapGet g2.machine.boards g1.machine.waiting).map bc.isAllShipsDestroyed =
      (mapGet g1.machine.boards g1.machine.waiting).map bc.isAllShipsDestroyed) :
    g2.getGameState bc = g1.getGameState bc := by
  unfold Game.getGameState Game.getBoard Game.getWaitingPlayer Game.getCurrentPlayer
    Game.getState
  simp only [hid, hstate, hcur, hwait, hown, hpub, hdone]

/-- C18: snapshot privacy. On a match a caller can hold, `getGameState()`
returns `ownBoard` as `getSnapshoot()` of the current player's board and
`enemyBoard` as `getPublicSnapshoot()` of the waiting player's board; and any
match with the same id, state and roles and the same boards for every player
but the waiting one, whose waiting board has the same `getPublicSnapshoot()`
and the same `isAllShipsDestroyed()`, gets an equal snapshot. -/
theorem snapshot_hides_waiting_board (id : String) (owner : Player)
    (g1 g2 : Game Board Snap PubSnap) (hreach : Reachable bc id owner g1)
    (hid : g2.id = g1.id) (hstate : g2.getState = g1.getState)
    (hcur : g2.getCurrentPlayer = g1.getCurrentPlayer)
    (hwait : g2.getWaitingPlayer = g1.getWaitingPlayer)
    (hboards : ∀ k : PlayerRef, k ≠ g1.getWaitingPlayer → g2.getBoard k = g1.getBoard k)
    (hpub : (g2.getBoard g2.getWaitingPlayer).map bc.getPublicSnapshoot =
      (g1.getBoard g1.getWaitingPlayer).map bc.getPublicSnapshoot)
    (hdone : (g2.getBoard g2.getWaitingPlayer).map bc.isAllShipsDestroyed =
      (g1.getBoard g1.getWaitingPlayer).map bc.isAllShipsDestroyed) :
    (∃ s, g1.getGameState bc = .ok s ∧
      s.ownBoard = (g1.getBoard g1.getCurrentPlayer).map bc.getSnapshoot ∧
      s.enemyBoard = (g1.getBoard g1.getWaitingPlayer).map bc.getPublicSnapshoot) ∧
    g2.getGameState bc = g1.getGameState bc := by
  have hinv := reachable_inv bc id owner g1 hreach
  refine ⟨?_, ?_⟩
  · obtain ⟨s, hs⟩ := getGameState_ok bc g1 hinv.machine.roles hinv.machine.noNullBoard
    refine ⟨s, hs, ?_⟩
    unfold Game.getGameState at hs
    simp only at hs
    split at hs
    · split at hs
      · cases hs
      · cases hs
        exact ⟨rfl, rfl⟩
    · cases hs
      exact ⟨rfl, rfl⟩
  · unfold Game.getState at hstate
    unfold Game.getCurrentPlayer at hcur
    unfold Game.getWaitingPlayer at hwait hboards hpub hdone
    unfold Game.getBoard at hboards hpub hdone
    rw [hwait] at hpub hdone
    refine getGameState_congr bc g1 g2 hid hstate hcur hwait ?_ hpub hdone
    rcases hinv.machine.roles with ⟨hc, hw⟩ | ⟨p, q, hp, hq, hne, -⟩
    · rw [hc]
      rw [hw, hinv.machine.noNullBoard] at hpub
      rw [hinv.machine.noNullBoard]
      cases hg : mapGet g2.machine.boards none with
      | none => rfl
      | some b =>
        rw [hg] at hpub
        cases hpub
    · refine hboards _ ?_
      rw [hp, hq]
      exact fun e => hne (Option.some.inj e)

end Snapshot

/-- The two matches in which alice has hit one cell of bob's board hold the same
boards for every player but bob. -/
theorem afterHit5_boards_agree (k : PlayerRef) (hk : k ≠ afterHit.getWaitingPlayer) :
    afterHit5.getBoard k = afterHit.getBoard k := by
  have h1 : afterHit.machine.boards = [(some alice, [3, 5]), (some bob, [5])] := by decide
  have h2 : afterHit5.machine.boards = [(some alice, [3, 5]), (some bob, [3])] := by decide
  have hw : afterHit.getWaitingPlayer = some bob := by decide
  rw [hw] at hk
  have hk' : ¬ some bob = k := fun e => hk e.symm
  unfold Game.getBoard
  rw [h1, h2]
  simp [mapGet, hk']

/-- Snapshot privacy on the two matches in which alice has hit one cell of
bob's board, cell 3 in one and cell 5 in the other: the snapshots are equal. -/
theorem snapshot_hides_waiting_board_witness :
    (∃ s, afterHit.getGameState fleet = .ok s ∧
      s.ownBoard = (afterHit.getBoard afterHit.getCurrentPlayer).map fleet.getSnapshoot ∧
      s.enemyBoard =
        (afterHit.getBoard afterHit.getWaitingPlayer).map fleet.getPublicSnapshoot) ∧
    afterHit5.getGameState fleet = afterHit.getGameState fleet :=
  snapshot_hides_waiting_board fleet "game1" alice afterHit afterHit5 afterHit_reachable
    (by decide) (by decide) (by decide) (by decide) afterHit5_boards_agree
    (by decide) (by decide)

/-! ## The winner -/

section Winner

variable {Board Position Snap PubSnap : Type}
variable (bc : BoardContract Board Position Snap PubSnap)

/-- A transition keeps the board invariant, when a newly created board is not
finished. -/
theorem step_winner_inv (owner : Player) (m m' : Machine Board) (c : Call Position)
    (hnew : bc.isAllShipsDestroyed bc.create = false)
    (hm : MachineInv owner m) (hw : WinnerInv bc m) (hstep : Step bc m c m') :
    WinnerInv bc m' := by
  cases hstep with
  | created p hs => exact absurd hs hm.notIdle
  | joined p hs =>
    refine ⟨fun _ k b hb => ?_, fun h => by simp at h⟩
    rcases mapGet_mapSet_cases _ _ _ _ _ hb with ⟨-, rfl⟩ | ⟨-, hold⟩
    · exact hnew
    · exact hw.alive (by rw [hs]; decide) k b hold
  | destroyed hs =>
    refine ⟨fun _ k b hb => ?_, fun h => by simp at h⟩
    refine hw.alive ?_ k b hb
    rcases hs with h | h | h <;> rw [h] <;> decide
  | abandoned p hs =>
    refine ⟨fun _ k b hb => ?_, fun h => by simp at h⟩
    refine hw.alive ?_ k b hb
    rcases hs with h | h <;> rw [h] <;> decide
  | leftA p hs hp =>
    refine ⟨fun _ k b hb => ?_, fun h => by simp at h⟩
    exact hw.alive (by rw [hs]; decide) k b hb
  | leftB p hs hpA hp =>
    refine ⟨fun _ k b hb => ?_, fun h => by simp at h⟩
    exact hw.alive (by rw [hs]; decide) k b hb
  | started hs =>
    refine ⟨fun _ k b hb => ?_, fun h => by simp at h⟩
    exact hw.alive (by rw [hs]; decide) k b hb
  | shotFinish p pos board hs hp hb hd =>
    refine ⟨fun h => absurd rfl h, fun _ => ?_⟩
    obtain ⟨q, hq⟩ := hm.playerTurn hs
    exact ⟨q, _, hq, mapGet_mapSet_self _ _ _, hd⟩
  | shotMiss p pos board hs hp hb hd hr =>
    refine ⟨fun _ k b hkb => ?_, fun h => by simp at h⟩
    rcases mapGet_mapSet_cases _ _ _ _ _ hkb with ⟨-, rfl⟩ | ⟨-, hold⟩
    · exact hd
    · exact hw.alive (by rw [hs]; decide) k b hold
  | shotHit p pos board hs hp hb hd hr =>
    refine ⟨fun _ k b hkb => ?_, fun h => by simp at h⟩
    rcases mapGet_mapSet_cases _ _ _ _ _ hkb with ⟨-, rfl⟩ | ⟨-, hold⟩
    · exact hd
    · exact hw.alive (by rw [hs]; decide) k b hold

/-- The dispatch keeps the board invariant. -/
theorem fire_winner_inv (owner : Player) (m : Machine Board) (c : Call Position)
    (hnew : bc.isAllShipsDestroyed bc.create = false)
    (hm : MachineInv owner m) (hw : WinnerInv bc m) :
    WinnerInv bc (m.fire bc c).2 := by
  rcases fire_cases bc m c with ⟨e, hf⟩ | ⟨m', hf, hstep⟩
  · rw [hf]
    exact hw
  · rw [hf]
    exact step_winner_inv bc owner m m' c hnew hm hw hstep

/-- Every match a caller can hold meets the board invariant, when a newly
created board is not finished. -/
theorem reachable_winner_inv (id : String) (owner : Player) (g : Game Board Snap PubSnap)
    (hreach : Reachable bc id owner g)
    (hnew : bc.isAllShipsDestroyed bc.create = false) : WinnerInv bc g.machine := by
  induction hreach with
  | constructed =>
    refine ⟨fun _ k b hb => ?_, fun h => ?_⟩
    · have hboards : (Game.constructor bc id (some owner) : Game Board Snap PubSnap).machine.boards
          = [(some owner, bc.create)] := by
        simp [Game.constructor, Machine.fire, createGame, transitions, transitionTo,
          Except.map, mapSet]
      rw [hboards] at hb
      simp only [mapGet] at hb
      split at hb
      · cases hb
        exact hnew
      · cases hb
    · simp [Game.constructor, Machine.fire, createGame, transitions, transitionTo,
        Except.map] at h
  | call g c hg ih =>
    rw [call_machine]
    cases g.forwarded c with
    | none => exact ih
    | some t =>
      exact fire_winner_inv bc owner g.machine t hnew
        (reachable_inv bc id owner g hg).machine ih

/-- C19: a winner exists exactly when the match is finished. Assume a newly
created board does not report all ships destroyed; boards are values that only
the facade calls change, so `isAllShipsDestroyed()` changes only through
`processShoot`. Then on every match a caller can hold whose current player,
if any, has a non-null id, `getGameState()` returns a snapshot whose
`winnerId` is non-null if and only if the state is FINISHED. -/
theorem winner_iff_finished (id : String) (owner : Player) (g : Game Board Snap PubSnap)
    (hreach : Reachable bc id owner g)
    (hnew : bc.isAllShipsDestroyed bc.create = false)
    (hids : ∀ p : Player, g.getCurrentPlayer = some p → p.id ≠ none) :
    ∃ s, g.getGameState bc = .ok s ∧ (s.winnerId ≠ none ↔ g.getState = .FINISHED) := by
  have hw := reachable_winner_inv bc id owner g hreach hnew
  unfold Game.getState
  by_cases hfin : g.machine.state = .FINISHED
  · obtain ⟨p, b, hp, hb, hd⟩ := hw.won hfin
    obtain ⟨s, hs, -, hwin⟩ := getGameState_of_current bc g p hp
    refine ⟨s, hs, ?_⟩
    rw [hwin, hb]
    simp only [Option.map_some', Option.getD_some, hd, if_true]
    exact ⟨fun _ => hfin, fun _ => hids p hp⟩
  · have halive : ((mapGet g.machine.boards g.machine.waiting).map
        bc.isAllShipsDestroyed).getD false = false := by
      cases hb : mapGet g.machine.boards g.machine.waiting with
      | none => rfl
      | some b =>
        simp only [Option.map_some', Option.getD_some]
        exact hw.alive hfin _ b hb
    obtain ⟨s, hs, -, hwin⟩ := getGameState_of_not_finished bc g halive
    refine ⟨s, hs, ?_⟩
    rw [hwin]
    exact ⟨fun h => absurd rfl h, fun h => absurd h hfin⟩

/-- The winner law on the finished match: alice's id is the winner id. -/
theorem winner_iff_finished_witness :
    ∃ s, finished.getGameState fleet = .ok s ∧
      (s.winnerId ≠ none ↔ finished.getState = .FINISHED) :=
  winner_iff_finished fleet "game1" alice finished finished_reachable (by decide)
    (fun p hp => by
      have hc : finished.getCurrentPlayer = some alice := by decide
      rw [hc] at hp
      cases hp
      decide)

end Winner

/-! ## How many boards the map holds -/

section BoardCount

variable {Board Position Snap PubSnap : Type}
variable (bc : BoardContract Board Position Snap PubSnap)

/-- A sequence of calls without a departure is a sequence of calls. -/
theorem reachable_of_no_departure (id : String) (owner : Player)
    (g : Game Board Snap PubSnap) (h : ReachableNoDeparture bc id owner g) :
    Reachable bc id owner g := by
  induction h with
  | constructed => exact Reachable.constructed
  | call g c _ _ ih => exact Reachable.call g c ih

/-- Replacing the board of the waiting player, who has one, keeps the keys of
the map. -/
theorem keys_of_shot (m : Machine Board) (board b' : Board)
    (hb : mapGet m.boards m.waiting = some board) :
    boardKeys { m with boards := mapSet m.boards m.waiting b' } = boardKeys m := by
  unfold boardKeys
  exact keys_mapSet_of_mem _ _ _ (mem_keys_of_mapGet _ _ _ hb)

/-- A transition keeps `SlotBoards`, for a `join` by a player that is in
neither slot and when no player leaves in AWAITING_START. -/
theorem step_slot_boards (owner : Player) (m m' : Machine Board) (c : Call Position)
    (hm : MachineInv owner m) (hk : SlotBoards m) (hstep : Step bc m c m')
    (hjoin : ∀ p, c = .join p → p ≠ m.playerA ∧ p ≠ m.playerB)
    (hleave : ∀ p, c = .leave p → m.state ≠ .AWAITING_START) :
    SlotBoards m' := by
  cases hstep with
  | created p hs => exact absurd hs hm.notIdle
  | joined p hs =>
    obtain ⟨hB, -, -⟩ := hm.awaitingPlayer hs
    obtain ⟨hpA, hpB⟩ := hjoin p rfl
    rw [hB] at hpB
    rcases hk with ⟨-, hkeys⟩ | ⟨hne, -⟩
    · refine Or.inr ⟨hpB, ?_⟩
      unfold boardKeys at hkeys ⊢
      show (mapSet m.boards p bc.create).map Prod.fst = [m.playerA, p]
      rw [keys_mapSet_of_not_mem _ _ _ (by rw [hkeys]; simpa using hpA), hkeys]
      rfl
    · exact absurd hB hne
  | destroyed hs => exact hk
  | abandoned p hs => exact hk
  | started hs => exact hk
  | leftA p hs hp => exact absurd hs (hleave p rfl)
  | leftB p hs hpA hp => exact absurd hs (hleave p rfl)
  | shotFinish p pos board hs hp hb hd =>
    have hkeys := keys_of_shot m board (bc.processShoot board pos).1 hb
    unfold SlotBoards boardKeys at hk ⊢
    unfold boardKeys at hkeys
    simp only at hkeys ⊢
    rw [hkeys]
    exact hk
  | shotMiss p pos board hs hp hb hd hr =>
    have hkeys := keys_of_shot m board (bc.processShoot board pos).1 hb
    unfold SlotBoards boardKeys at hk ⊢
    unfold boardKeys at hkeys
    simp only at hkeys ⊢
    rw [hkeys]
    exact hk
  | shotHit p pos board hs hp hb hd hr =>
    have hkeys := keys_of_shot m board (bc.processShoot board pos).1 hb
    unfold SlotBoards boardKeys at hk ⊢
    unfold boardKeys at hkeys
    simp only at hkeys ⊢
    rw [hkeys]
    exact hk

/-- Every match reached without a departure holds one board per occupied
slot. -/
theorem no_departure_slot_boards (id : String) (owner : Player)
    (g : Game Board Snap PubSnap) (h : ReachableNoDeparture bc id owner g) :
    SlotBoards g.machine := by
  induction h with
  | constructed =>
    refine Or.inl ⟨?_, ?_⟩ <;>
      simp [Game.constructor, Machine.fire, createGame, transitions, transitionTo,
        Except.map, mapSet, boardKeys]
  | call g c hg hdep ih =>
    have hinv := reachable_inv bc id owner g (reachable_of_no_departure bc id owner g hg)
    rw [call_machine]
    cases hfw : g.forwarded c with
    | none => exact ih
    | some t =>
      simp only
      rcases fire_cases bc g.machine t with ⟨e, hf⟩ | ⟨m', hf, hstep⟩
      · rw [hf]
        exact ih
      · rw [hf]
        refine step_slot_boards bc owner g.machine m' t hinv.machine ih hstep
          (fun p hp => ?_) (fun p hp hs => ?_)
        · rw [hp] at hfw
          exact (forwarded_join g c p hfw).2
        · rw [hp] at hfw
          obtain ⟨hc, hne⟩ := forwarded_leave g c p hfw
          exact hdep ⟨p, hc, hne, hs⟩

/-- C12, as stated, fails on the match alice created, bob joined and left, and
carol then joined: the map holds three boards, and it holds one for bob, who
is neither `playerA` nor `playerB`. -/
theorem three_boards_after_replacement :
    replaced = ((((created.join fleet (some bob)).2.leave fleet (some bob)).2).join fleet
      (some carol)).2 ∧
    replaced.machine.boards.length = 3 ∧
    replaced.getBoard (some bob) ≠ none ∧
    some bob ≠ replaced.machine.playerA ∧ some bob ≠ replaced.machine.playerB := by
  refine ⟨rfl, by decide, by decide, by decide, by decide⟩

/-- C12, amended: board count without departures. On every match built by the
constructor and driven by a finite sequence of facade calls in which no
player other than the owner leaves while the match awaits its start, the
board map holds at most two boards, and it holds a board only for players that
are currently `playerA` or `playerB`. -/
theorem at_most_two_boards (id : String) (owner : Player) (g : Game Board Snap PubSnap)
    (h : ReachableNoDeparture bc id owner g) :
    g.machine.boards.length ≤ 2 ∧
    ∀ k : PlayerRef, g.getBoard k ≠ none →
      k = g.machine.playerA ∨ k = g.machine.playerB := by
  have hk := no_departure_slot_boards bc id owner g h
  unfold SlotBoards boardKeys at hk
  have hlen : g.machine.boards.length = (g.machine.boards.map Prod.fst).length := by simp
  refine ⟨?_, fun k hkb => ?_⟩
  · rcases hk with ⟨-, hkeys⟩ | ⟨-, hkeys⟩ <;> rw [hlen, hkeys] <;> simp
  · unfold Game.getBoard at hkb
    obtain ⟨b, hb⟩ := Option.ne_none_iff_exists'.mp hkb
    have hmem := mem_keys_of_mapGet _ _ _ hb
    rcases hk with ⟨-, hkeys⟩ | ⟨-, hkeys⟩
    · rw [hkeys] at hmem
      simp only [List.mem_singleton] at hmem
      exact Or.inl hmem
    · rw [hkeys] at hmem
      simp only [List.mem_cons, List.mem_singleton, List.not_mem_nil, or_false] at hmem
      exact hmem

/-- The amended board count on the started match, reached without a
departure: two boards, alice's and bob's. -/
theorem at_most_two_boards_witness :
    started.machine.boards.length ≤ 2 ∧
    ∀ k : PlayerRef, started.getBoard k ≠ none →
      k = started.machine.playerA ∨ k = started.machine.playerB :=
  at_most_two_boards fleet "game1" alice started
    (ReachableNoDeparture.call joined .start
      (ReachableNoDeparture.call created (.join (some bob))
        ReachableNoDeparture.constructed
        (fun hdep => by
          obtain ⟨p, hc, -, -⟩ := hdep
          cases hc))
      (fun hdep => by
        obtain ⟨p, hc, -, -⟩ := hdep
        cases hc))

end BoardCount

/-! ## What happens to a board once the map holds it -/

section BoardStability

variable {Board Position Snap PubSnap : Type}
variable (bc : BoardContract Board Position Snap PubSnap)

/-- What a transition out of a state other than IDLE does to the board held for
a key: nothing, or `processShoot` on the waiting player's board, or the
replacement of the joining player's board by a newly created one. -/
theorem step_board_change (m m' : Machine Board) (c : Call Position)
    (hstep : Step bc m c m') (hne : m.state ≠ .IDLE) (k : PlayerRef) (b : Board)
    (hb : mapGet m.boards k = some b) :
    mapGet m'.boards k = some b ∨
    (∃ (p : PlayerRef) (pos : Position), c = .makeShot p pos ∧ m.state = .PLAYER_TURN ∧
      p = m.current ∧ k = m.waiting ∧
      mapGet m'.boards k = some (bc.processShoot b pos).1) ∨
    (c = .join k ∧ m.state = .AWAITING_PLAYER ∧ mapGet m'.boards k = some bc.create) := by
  have hshot : ∀ (p : PlayerRef) (pos : Position) (board : Board),
      m.state = .PLAYER_TURN → m.current = p → mapGet m.boards m.waiting = some board →
      mapGet (mapSet m.boards m.waiting (bc.processShoot board pos).1) k = some b ∨
      (∃ (p' : PlayerRef) (pos' : Position), Call.makeShot p pos = .makeShot p' pos' ∧
        m.state = .PLAYER_TURN ∧ p' = m.current ∧ k = m.waiting ∧
        mapGet (mapSet m.boards m.waiting (bc.processShoot board pos).1) k =
          some (bc.processShoot b pos').1) ∨
      (Call.makeShot p pos = .join k ∧ m.state = .AWAITING_PLAYER ∧
        mapGet (mapSet m.boards m.waiting (bc.processShoot board pos).1) k =
          some bc.create) := by
    intro p pos board hs hp hboard
    by_cases hk : k = m.waiting
    · subst hk
      rw [hb] at hboard
      cases hboard
      exact Or.inr (Or.inl ⟨p, pos, rfl, hs, hp.symm, rfl, mapGet_mapSet_self _ _ _⟩)
    · exact Or.inl (by rw [mapGet_mapSet_of_ne _ _ _ _ hk]; exact hb)
  cases hstep with
  | created p hs => exact absurd hs hne
  | joined p hs =>
    by_cases hk : k = p
    · subst hk
      exact Or.inr (Or.inr ⟨rfl, hs, mapGet_mapSet_self _ _ _⟩)
    · exact Or.inl (by
        show mapGet (mapSet m.boards p bc.create) k = some b
        rw [mapGet_mapSet_of_ne _ _ _ _ hk]
        exact hb)
  | destroyed hs => exact Or.inl hb
  | abandoned p hs => exact Or.inl hb
  | leftA p hs hp => exact Or.inl hb
  | leftB p hs hpA hp => exact Or.inl hb
  | started hs => exact Or.inl hb
  | shotFinish p pos board hs hp hboard hd => exact hshot p pos board hs hp hboard
  | shotMiss p pos board hs hp hboard hd hr => exact hshot p pos board hs hp hboard
  | shotHit p pos board hs hp hboard hd hr => exact hshot p pos board hs hp hboard

/-- What a facade call does to the board held for a key, on a match that is
not in IDLE. -/
theorem call_board_change (g : Game Board Snap PubSnap) (c : FacadeCall Position)
    (hne : g.machine.state ≠ .IDLE) (k : PlayerRef) (b : Board)
    (hb : g.getBoard k = some b) :
    (g.call bc c).2.getBoard k = some b ∨
    (∃ (player : PlayerRef) (target : Position), c = .makeShot player target ∧
      g.getState = .PLAYER_TURN ∧ player = g.getCurrentPlayer ∧ k = g.getWaitingPlayer ∧
      (g.call bc c).2.getBoard k = some (bc.processShoot b target).1) ∨
    (c = .join k ∧ g.getState = .AWAITING_PLAYER ∧
      k ≠ g.machine.playerA ∧ k ≠ g.machine.playerB ∧
      (g.call bc c).2.getBoard k = some bc.create) := by
  unfold Game.getBoard Game.getState Game.getCurrentPlayer Game.getWaitingPlayer
  unfold Game.getBoard at hb
  rw [call_machine]
  cases hfw : g.forwarded c with
  | none => exact Or.inl hb
  | some t =>
    simp only
    rcases fire_cases bc g.machine t with ⟨e, hf⟩ | ⟨m', hf, hstep⟩
    · rw [hf]
      exact Or.inl hb
    · rw [hf]
      rcases step_board_change bc g.machine m' t hstep hne k b hb with
        h | ⟨p, pos, ht, hs, hp, hk, hnew⟩ | ⟨ht, hs, hnew⟩
      · exact Or.inl h
      · rw [ht] at hfw
        exact Or.inr (Or.inl ⟨p, pos, forwarded_makeShot g c p pos hfw, hs, hp, hk, hnew⟩)
      · rw [ht] at hfw
        obtain ⟨hc, hA, hB⟩ := forwarded_join g c k hfw
        exact Or.inr (Or.inr ⟨hc, hs, hA, hB, hnew⟩)

/-- The matches driven from a match a caller can hold are matches a caller can
hold. -/
theorem reachable_of_driven (id : String) (owner : Player) (g g' : Game Board Snap PubSnap)
    (hreach : Reachable bc id owner g) (hdriven : Driven bc g g') :
    Reachable bc id owner g' := by
  induction hdriven with
  | start => exact hreach
  | call g1 c _ ih => exact Reachable.call g1 c ih

/-- C13, as stated, fails on the match bob joined and left: bob has a board, the
state is AWAITING_PLAYER and bob is in neither slot, so `join(bob)` is
forwarded to the machine, returns, enters AWAITING_START and sets a newly
created board for bob in place of the one he had. -/
theorem join_runs_for_player_with_board :
    departed = ((created.join fleet (some bob)).2.leave fleet (some bob)).2 ∧
    departed.getBoard (some bob) ≠ none ∧
    departed.getState = .AWAITING_PLAYER ∧
    departed.forwarded (.join (some bob) : FacadeCall Nat) = some (.join (some bob)) ∧
    (departed.join fleet (some bob)).1 = .returned ∧
    (departed.join fleet (some bob)).2.getState = .AWAITING_START ∧
    (departed.join fleet (some bob)).2.machine.boards =
      mapSet departed.machine.boards (some bob) fleet.create := by
  refine ⟨rfl, by decide, by decide, ?_, by decide, by decide, by decide⟩
  rfl

/-- C13, amended: board stability. On every match a caller can hold, once the
board map holds a board for `p`, no sequence of later calls removes that
entry; and a single call leaves the board held for `p` as it was, except that
`makeShot` by the current player in PLAYER_TURN applies `processShoot` to it
when `p` is the waiting player, and that `join(p)` in AWAITING_PLAYER, for a
`p` that is in neither slot, replaces it with a newly created board. -/
theorem board_stability (id : String) (owner : Player) (g : Game Board Snap PubSnap)
    (hreach : Reachable bc id owner g) (p : PlayerRef) (b : Board)
    (hb : g.getBoard p = some b) :
    (∀ g' : Game Board Snap PubSnap, Driven bc g g' → g'.getBoard p ≠ none) ∧
    (∀ c : FacadeCall Position,
      (g.call bc c).2.getBoard p = some b ∨
      (∃ (player : PlayerRef) (target : Position), c = .makeShot player target ∧
        g.getState = .PLAYER_TURN ∧ player = g.getCurrentPlayer ∧ p = g.getWaitingPlayer ∧
        (g.call bc c).2.getBoard p = some (bc.processShoot b target).1) ∨
      (c = .join p ∧ g.getState = .AWAITING_PLAYER ∧
        p ≠ g.machine.playerA ∧ p ≠ g.machine.playerB ∧
        (g.call bc c).2.getBoard p = some bc.create)) := by
  refine ⟨fun g' hdriven => ?_, fun c => ?_⟩
  · induction hdriven with
    | start =>
      rw [hb]
      simp
    | call g1 c hd ih =>
      have hne := (reachable_inv bc id owner g1
        (reachable_of_driven bc id owner g g1 hreach hd)).machine.notIdle
      obtain ⟨b1, hb1⟩ := Option.ne_none_iff_exists'.mp ih
      rcases call_board_change bc g1 c hne p b1 hb1 with
        h | ⟨_, _, _, _, _, _, h⟩ | ⟨_, _, _, _, h⟩ <;> rw [h] <;> simp
  · exact call_board_change bc g c (reachable_inv bc id owner g hreach).machine.notIdle p b hb

/-- The amended board stability on the started match and bob's board. -/
theorem board_stability_witness :
    (∀ g' : Game (List Nat) (List Nat) Nat, Driven fleet started g' →
      g'.getBoard (some bob) ≠ none) ∧
    (∀ c : FacadeCall Nat,
      (started.call fleet c).2.getBoard (some bob) = some [3, 5] ∨
      (∃ (player : PlayerRef) (target : Nat), c = .makeShot player target ∧
        started.getState = .PLAYER_TURN ∧ player = started.getCurrentPlayer ∧
        some bob = started.getWaitingPlayer ∧
        (started.call fleet c).2.getBoard (some bob) =
          some (fleet.processShoot [3, 5] target).1) ∨
      (c = .join (some bob) ∧ started.getState = .AWAITING_PLAYER ∧
        some bob ≠ started.machine.playerA ∧ some bob ≠ started.machine.playerB ∧
        (started.call fleet c).2.getBoard (some bob) = some fleet.create)) :=
  board_stability fleet "game1" alice started started_reachable (some bob) [3, 5]
    (by decide)

end BoardStability

end BattleShips
